import Mathlib

/-!
Verification of the task lifecycle and response-normalization pipeline of the
Web3 agent server (samples/python/agents/google_adk_mcp and google_adk_mcp_2).

Python strings are modelled as `List Char`; Python values that flow through the
pipeline (the raw agent responses: `str`, `dict`, `list`, together with the
JSON primitives `int`, `bool`, `None` that appear inside them) are modelled by
the inductive type `PyVal`.  The standard-library functions `json.dumps` /
`json.loads` used by `task_manager._invoke` are modelled by an executable
printer (`dumpsVal`) and recursive-descent parser (`loads`) over the JSON
fragment those values inhabit.
-/

namespace A2A

/-- Python `str` values. -/
abbrev Str := List Char

/-- Python's substring containment `needle in hay`. -/
def hasSub (hay needle : Str) : Bool :=
  match hay with
  | [] => needle.isEmpty
  | _ :: rest => needle.isPrefixOf hay || hasSub rest needle

/-- The Python values flowing through the pipeline: the raw agent responses
(`str`, `dict`, `list`) and the JSON primitives appearing inside them.
`PyVal.none` models Python `None` / JSON `null`. -/
inductive PyVal where
  | str : Str → PyVal
  | int : Int → PyVal
  | bool : Bool → PyVal
  | none : PyVal
  | list : List PyVal → PyVal
  | dict : List (Str × PyVal) → PyVal
deriving Repr

/-- First-match lookup in an association list, modelling `obj[k]` / `k in obj`
on a Python `dict` (whose keys are unique). -/
def lookupK (kvs : List (Str × PyVal)) (k : Str) : Option PyVal :=
  match kvs with
  | [] => Option.none
  | (k', v) :: rest => if k' = k then some v else lookupK rest k

/-- Replace the value at the first occurrence of key `k`, modelling
`obj[k] = v` when `k` is already present. -/
def setK (kvs : List (Str × PyVal)) (k : Str) (v : PyVal) : List (Str × PyVal) :=
  match kvs with
  | [] => []
  | (k', v') :: rest => if k' = k then (k', v) :: rest else (k', v') :: setK rest k v

/-- `obj[k] = v` on a Python dict: replace if present, else append at the end
(CPython dicts preserve insertion order, new keys go last). -/
def putK (kvs : List (Str × PyVal)) (k : Str) (v : PyVal) : List (Str × PyVal) :=
  match lookupK kvs k with
  | some _ => setK kvs k v
  | Option.none => kvs ++ [(k, v)]

/-! ## The printer: `json.dumps` (with `default=custom_serializer`)

Python's `json.dumps` with default separators emits `", "` between items and
`": "` between a key and a value.  String escaping is modelled for the two
characters that are ambiguous for the reader (`"` and `\`); `custom_serializer`
(agent.py lines 106–113) is only invoked on objects outside the JSON-native
types, which never happens for a `PyVal`. -/

/-- Escape one character of a JSON string. -/
def escChar (c : Char) : Str :=
  if c = '"' || c = '\\' then ['\\', c] else [c]

/-- Escape a JSON string body. -/
def escape : Str → Str
  | [] => []
  | c :: rest => escChar c ++ escape rest

/-- Decimal digit to character. -/
def digitCh (d : Nat) : Char := Char.ofNat (48 + d)

/-- Decimal representation of a natural number, most significant digit first. -/
def natChars (n : Nat) : Str :=
  if n = 0 then ['0'] else ((Nat.digits 10 n).map digitCh).reverse

/-- Decimal representation of a Python `int`. -/
def intChars (n : Int) : Str :=
  if n < 0 then '-' :: natChars (-n).toNat else natChars n.toNat

mutual

/-- `json.dumps` on a `PyVal` (default separators, i.e. `", "` and `": "`). -/
def dumpsVal : PyVal → Str
  | .str s => '"' :: (escape s ++ ['"'])
  | .int n => intChars n
  | .bool b => if b then "true".data else "false".data
  | .none => "null".data
  | .list l => '[' :: (dumpsElems l ++ [']'])
  | .dict kvs => '{' :: (dumpsKVs kvs ++ ['}'])

/-- Array elements joined by `", "`. -/
def dumpsElems : List PyVal → Str
  | [] => []
  | [v] => dumpsVal v
  | v :: rest => dumpsVal v ++ ',' :: ' ' :: dumpsElems rest

/-- Object members `"key": value` joined by `", "`. -/
def dumpsKVs : List (Str × PyVal) → Str
  | [] => []
  | [(k, v)] => '"' :: (escape k ++ '"' :: ':' :: ' ' :: dumpsVal v)
  | (k, v) :: rest =>
      ('"' :: (escape k ++ '"' :: ':' :: ' ' :: dumpsVal v)) ++ ',' :: ' ' :: dumpsKVs rest

end

/-! ## Python `str()` / `repr()`

`str(result)` is used by `_invoke` both for the sentinel check
(`"MISSING_INFO:" in str(result)`) and for the text fallback.  For a `str` it
is the identity; for containers it is `repr`: single-quoted strings,
capitalized `True` / `False` / `None`, `", "` and `": "` separators. -/

/-- Escape one character inside a single-quoted Python `repr` string. -/
def reprEscChar (c : Char) : Str :=
  if c = '\'' || c = '\\' then ['\\', c] else [c]

/-- Escape a single-quoted Python `repr` string body. -/
def reprEscape : Str → Str
  | [] => []
  | c :: rest => reprEscChar c ++ reprEscape rest

mutual

/-- Python `repr` of a `PyVal`. -/
def pyRepr : PyVal → Str
  | .str s => '\'' :: (reprEscape s ++ ['\''])
  | .int n => intChars n
  | .bool b => if b then "True".data else "False".data
  | .none => "None".data
  | .list l => '[' :: (pyReprElems l ++ [']'])
  | .dict kvs => '{' :: (pyReprKVs kvs ++ ['}'])

/-- `repr` of list elements joined by `", "`. -/
def pyReprElems : List PyVal → Str
  | [] => []
  | [v] => pyRepr v
  | v :: rest => pyRepr v ++ ',' :: ' ' :: pyReprElems rest

/-- `repr` of dict members joined by `", "`. -/
def pyReprKVs : List (Str × PyVal) → Str
  | [] => []
  | [(k, v)] => '\'' :: (reprEscape k ++ '\'' :: ':' :: ' ' :: pyRepr v)
  | (k, v) :: rest =>
      ('\'' :: (reprEscape k ++ '\'' :: ':' :: ' ' :: pyRepr v)) ++ ',' :: ' ' :: pyReprKVs rest

end

/-- Python `str()`: identity on `str`, `repr` on everything else. -/
def pyStr : PyVal → Str
  | .str s => s
  | v => pyRepr v

/-! ## The parser: `json.loads`

A fuelled recursive-descent parser over the JSON fragment inhabited by
`PyVal`.  The fuel is decremented at every recursive call; `loads` saturates it
at `length + 1`, which is ample because every recursive call consumes at least
one character of input. -/

/-- JSON whitespace. -/
def isWs (c : Char) : Bool := c = ' ' || c = '\t' || c = '\n' || c = '\r'

/-- Drop leading JSON whitespace. -/
def skipWs : Str → Str
  | [] => []
  | c :: rest => if isWs c then skipWs rest else c :: rest

/-- ASCII decimal digit test. -/
def isDigitCh (c : Char) : Bool := '0' ≤ c && c ≤ '9'

/-- Value of an ASCII decimal digit character. -/
def digitVal (c : Char) : Nat := c.toNat - 48

/-- Accumulate a decimal numeral. -/
def charsToNat (ds : Str) : Nat := ds.foldl (fun a c => a * 10 + digitVal c) 0

/-- Parse the body of a JSON string after the opening quote, returning the
unescaped body and the input after the closing quote. -/
def parseStrBody : Str → Option (Str × Str)
  | [] => Option.none
  | c :: rest =>
    if c = '"' then some ([], rest)
    else if c = '\\' then
      match rest with
      | [] => Option.none
      | d :: rest2 =>
        if d = '"' || d = '\\' then
          match parseStrBody rest2 with
          | some (s, r) => some (d :: s, r)
          | Option.none => Option.none
        else Option.none
    else
      match parseStrBody rest with
      | some (s, r) => some (c :: s, r)
      | Option.none => Option.none

mutual

/-- Parse one JSON value (after skipping leading whitespace). -/
def parseVal : Nat → Str → Option (PyVal × Str)
  | 0, _ => Option.none
  | fuel + 1, s =>
    match skipWs s with
    | [] => Option.none
    | c :: r =>
      if c = '{' then
        match skipWs r with
        | '}' :: r2 => some (.dict [], r2)
        | _ =>
          match parseMembers fuel r with
          | some (kvs, rest) => some (.dict kvs, rest)
          | Option.none => Option.none
      else if c = '[' then
        match skipWs r with
        | ']' :: r2 => some (.list [], r2)
        | _ =>
          match parseElems fuel r with
          | some (vs, rest) => some (.list vs, rest)
          | Option.none => Option.none
      else if c = '"' then
        match parseStrBody r with
        | some (s, rest) => some (.str s, rest)
        | Option.none => Option.none
      else if c = 't' then
        match r with
        | 'r' :: 'u' :: 'e' :: r2 => some (.bool true, r2)
        | _ => Option.none
      else if c = 'f' then
        match r with
        | 'a' :: 'l' :: 's' :: 'e' :: r2 => some (.bool false, r2)
        | _ => Option.none
      else if c = 'n' then
        match r with
        | 'u' :: 'l' :: 'l' :: r2 => some (.none, r2)
        | _ => Option.none
      else if c = '-' then
        match r.takeWhile isDigitCh with
        | [] => Option.none
        | ds => some (.int (-(charsToNat ds : Int)), r.dropWhile isDigitCh)
      else if isDigitCh c then
        some (.int (charsToNat ((c :: r).takeWhile isDigitCh)),
              (c :: r).dropWhile isDigitCh)
      else Option.none

/-- Parse the members of a non-empty JSON object after the opening brace. -/
def parseMembers : Nat → Str → Option (List (Str × PyVal) × Str)
  | 0, _ => Option.none
  | fuel + 1, s =>
    match skipWs s with
    | '"' :: r =>
      match parseStrBody r with
      | some (key, r1) =>
        match skipWs r1 with
        | ':' :: r2 =>
          match parseVal fuel r2 with
          | some (v, r3) =>
            match skipWs r3 with
            | ',' :: r4 =>
              match parseMembers fuel r4 with
              | some (kvs, r5) => some ((key, v) :: kvs, r5)
              | Option.none => Option.none
            | '}' :: r4 => some ([(key, v)], r4)
            | _ => Option.none
          | Option.none => Option.none
        | _ => Option.none
      | Option.none => Option.none
    | _ => Option.none

/-- Parse the elements of a non-empty JSON array after the opening bracket. -/
def parseElems : Nat → Str → Option (List PyVal × Str)
  | 0, _ => Option.none
  | fuel + 1, s =>
    match parseVal fuel s with
    | some (v, r) =>
      match skipWs r with
      | ',' :: r2 =>
        match parseElems fuel r2 with
        | some (vs, r3) => some (v :: vs, r3)
        | Option.none => Option.none
      | ']' :: r2 => some ([v], r2)
      | _ => Option.none
    | Option.none => Option.none

end

/-- `json.loads`: parse a complete JSON document (trailing whitespace
allowed), `Option.none` modelling `json.JSONDecodeError`. -/
def loads (s : Str) : Option PyVal :=
  match parseVal (s.length + 1) s with
  | some (v, rest) => if skipWs rest = [] then some v else Option.none
  | Option.none => Option.none

/-! ## Response classification and task-state determination
(`task_manager.AgentTaskManager._invoke`, lines 124–158)

The classification block (lines 127–151) runs under
`try ... except (json.JSONDecodeError, TypeError)`.  Exceptions are modelled
explicitly: the inner `json.loads` failure is an `Option`, and the
`AttributeError` raised by `result.startswith` on a non-`str`, non-container
value (not caught by that `except` clause) is the `.error` of the result. -/

/-- One member of the `parts` list built by `_invoke`: `{"type": "text", ...}`
or `{"type": "data", ...}`. -/
inductive Part where
  | text : Str → Part
  | data : PyVal → Part
deriving Repr

/-- The classification block of `_invoke` (lines 127–151).  `.error` models an
exception escaping the block (the `AttributeError` from `result.startswith` on
a value that is neither a `str` nor a `dict`/`list`); the
`except (json.JSONDecodeError, TypeError)` fallback to a text part is the
final `Option.none` branches. -/
def classify (result : PyVal) : Except Str (List Part) :=
  match result with
  | .dict _ | .list _ =>
      -- json_result = json.loads(json.dumps(result, default=custom_serializer))
      match loads (dumpsVal result) with
      | some j => .ok [.data j]
      | Option.none => .ok [.text (pyStr result)]
  | .str s =>
      if s.take 1 = ['{'] || s.take 1 = ['['] then
        match loads s with
        | some j => .ok [.data j]
        | Option.none =>
            -- initial parse failed: json.loads(json.dumps(result, default=custom_serializer))
            match loads (dumpsVal (.str s)) with
            | some j => .ok [.data j]
            | Option.none => .ok [.text (pyStr (.str s))]
      else .ok [.text s]
  | _ =>
      -- `result.startswith("{")` on an int/bool/None raises AttributeError,
      -- which `except (json.JSONDecodeError, TypeError)` does not catch
      .error ("'object' has no attribute 'startswith'".data)

/-- Task states (common.types.TaskState members used by this pipeline). -/
inductive TaskState where
  | SUBMITTED
  | INPUT_REQUIRED
  | COMPLETED
  | FAILED
deriving Repr, DecidableEq

/-- Lines 153–158: `INPUT_REQUIRED` iff `"MISSING_INFO:" in str(result)`,
else `COMPLETED`. -/
def taskStateOf (result : PyVal) : TaskState :=
  if hasSub (pyStr result) ("MISSING_INFO:".data) then .INPUT_REQUIRED else .COMPLETED

/-! ## Task data model (common.types, as used by task_manager.py) -/

/-- `Message(role=..., parts=...)`. -/
structure Message where
  role : Str
  parts : List Part
deriving Repr

/-- `TaskStatus(state=..., message=...)`. -/
structure TaskStatus where
  state : TaskState
  message : Option Message
deriving Repr

/-- `Artifact(parts=...)`. -/
structure Artifact where
  parts : List Part
deriving Repr

/-- A task record: id, current status, optional artifact list (a fresh task
has `artifacts = None`; `_update_store` lazily initializes it to `[]`). -/
structure Task where
  id : Str
  status : TaskStatus
  artifacts : Option (List Artifact)
deriving Repr

/-- The in-memory task store `self.tasks`: an insertion-ordered mapping of
task id to task record. -/
abbrev TaskStore := List (Str × Task)

/-- `self.tasks.get(task_id)`. -/
def storeGet (store : TaskStore) (id : Str) : Option Task :=
  match store with
  | [] => Option.none
  | (k, t) :: rest => if k = id then some t else storeGet rest id

/-- `self.tasks[task_id] = task`: replace if present, else append. -/
def storeSet (store : TaskStore) (id : Str) (t : Task) : TaskStore :=
  match store with
  | [] => [(id, t)]
  | (k, t') :: rest => if k = id then (k, t) :: rest else (k, t') :: storeSet rest id t

/-! ## Request / response model (common.types RPC surface) -/

/-- `TaskSendParams` (the fields this pipeline reads). -/
structure TaskSendParams where
  id : Str
  sessionId : Str
  message : Message
  acceptedOutputModes : Option (List Str)
deriving Repr

/-- `SendTaskRequest{id, params}`. -/
structure SendTaskRequest where
  id : Str
  params : TaskSendParams
deriving Repr

/-- The JSON-RPC error carried by a failed `SendTaskResponse`
(`utils.new_incompatible_types_error`). -/
inductive RpcError where
  | incompatibleTypes
deriving Repr, DecidableEq

/-- `SendTaskResponse{id, result | error}`. -/
structure SendTaskResponse where
  id : Str
  result : Option Task
  error : Option RpcError
deriving Repr

/-! ## The task manager (task_manager.AgentTaskManager)

Stateful methods are modelled by explicit store passing; a method that may
raise returns `Except Str α × TaskStore`, where `.error msg` models an
uncaught Python exception carrying `msg` and the second component is the
task store after the call (Python's `self.tasks` survives an exception). -/

/-- `Web3Agent.SUPPORTED_CONTENT_TYPES` (agent.py line 118). -/
def SUPPORTED_CONTENT_TYPES : List Str := ["text".data, "text/plain".data]

/-- Modelled from the spec: `common.server.utils.are_modalities_compatible`
(not under src/).  Per §4.1 the manager "validates requested output modes
against the agent's supported content types"; the shared A2A utility treats an
absent or empty client list as compatible and otherwise requires a common
element. -/
def are_modalities_compatible (client : Option (List Str)) (server : List Str) : Bool :=
  match client with
  | Option.none => true
  | some [] => true
  | some modes => modes.any (fun m => server.contains m)

/-- Modelled from the spec: `InMemoryTaskManager.upsert_task`
(common/server/task_manager.py, not under src/).  Per §3, a task is "created
on first `on_send_task` for a given id (upsert semantics: create if absent,
otherwise reuse)"; a newly created task has no artifacts yet. -/
def upsert_task (store : TaskStore) (params : TaskSendParams) : TaskStore :=
  match storeGet store params.id with
  | some _ => store
  | Option.none =>
      storeSet store params.id
        { id := params.id
          status := { state := .SUBMITTED, message := some params.message }
          artifacts := Option.none }

/-- `AgentTaskManager._get_user_query` (lines 219–224):
`task_send_params.message.parts[0]` must exist and be a `TextPart`, otherwise
a `ValueError` (or `IndexError` for an empty parts list) is raised. -/
def _get_user_query (params : TaskSendParams) : Except Str Str :=
  match params.message.parts with
  | [] => .error ("list index out of range".data)
  | p :: _ =>
    match p with
    | .text t => .ok t
    | _ => .error ("Only text parts are supported".data)

/-- `AgentTaskManager._update_store` (lines 86–104): look the task up (raising
`ValueError` if absent), replace its status, and extend its artifact list
(initializing it to `[]` if it is still `None`). -/
def _update_store (store : TaskStore) (taskId : Str) (status : TaskStatus)
    (artifacts : List Artifact) : Except Str Task × TaskStore :=
  match storeGet store taskId with
  | Option.none =>
      (.error (("Task ".data ++ taskId) ++ " not found".data), store)
  | some task =>
      let task' : Task :=
        { task with
          status := status
          artifacts := some (task.artifacts.getD [] ++ artifacts) }
      (.ok task', storeSet store taskId task')

/-- Models CPython's `asyncio.run(coro)` called from a thread whose event loop
is already running — which is the situation inside any coroutine that is being
awaited, such as `_invoke`: `asyncio.run` raises
`RuntimeError("asyncio.run() cannot be called from a running event loop")`
before the coroutine is ever executed.  When no loop is running it simply runs
the coroutine to completion. -/
def asyncioRun (loopRunning : Bool) (coro : TaskStore → Except Str Task × TaskStore)
    (store : TaskStore) : Except Str Task × TaskStore :=
  if loopRunning then
    (.error ("asyncio.run() cannot be called from a running event loop".data), store)
  else coro store

/-- `AgentTaskManager._create_error_response` (lines 200–217), called from the
exception handlers of `_invoke` — hence from a coroutine on the running event
loop.  It tries `asyncio.run(self._update_store(...))`; on any exception it
raises `ValueError(error_msg)`. -/
def _create_error_response (store : TaskStore) (requestId taskId errorMsg : Str) :
    Except Str SendTaskResponse × TaskStore :=
  let parts : List Part := [.text errorMsg]
  match asyncioRun true
      (fun st => _update_store st taskId
        { state := .COMPLETED, message := some { role := "agent".data, parts := parts } }
        [{ parts := parts }]) store with
  | (.ok task, store') =>
      (.ok { id := requestId, result := some task, error := Option.none }, store')
  | (.error _, store') => (.error errorMsg, store')

/-- The outcome of `asyncio.wait_for(self.agent.invoke(...), timeout=45)`:
either a returned value, `asyncio.TimeoutError`, or any other exception
(carrying its `str(e)` message). -/
inductive InvokeOutcome where
  | ok : PyVal → InvokeOutcome
  | timeout : InvokeOutcome
  | raised : Str → InvokeOutcome
deriving Repr

/-- `BLOCKCHAIN_TIMEOUT = 45` (line 28). -/
def BLOCKCHAIN_TIMEOUT : Nat := 45

/-- The timeout message of line 177. -/
def timeoutMsg : Str :=
  "Timeout waiting for response from blockchain after 45 seconds".data

/-- The inner `try` of `_invoke` (lines 114–178): agent call under timeout,
`None` check, classification, state determination, store update.  `.error`
models an exception propagating out of the inner `try` statement (to be caught
by the outer `except Exception` at line 180). -/
def invokeInner (store : TaskStore) (request : SendTaskRequest)
    (outcome : InvokeOutcome) : Except Str SendTaskResponse × TaskStore :=
  match outcome with
  | .timeout =>
      -- except asyncio.TimeoutError: return self._create_error_response(...)
      _create_error_response store request.id request.params.id timeoutMsg
  | .raised msg => (.error msg, store)
  | .ok result =>
      match result with
      | .none =>
        -- raise ValueError("No response received from agent")
        (.error ("No response received from agent".data), store)
      | _ =>
        match classify result with
        | .error msg => (.error msg, store)
        | .ok parts =>
          let status : TaskStatus :=
            { state := taskStateOf result
              message := some { role := "agent".data, parts := parts } }
          match _update_store store request.params.id status [{ parts := parts }] with
          | (.ok task, store') =>
              (.ok { id := request.id, result := some task, error := Option.none }, store')
          | (.error msg, store') => (.error msg, store')

/-- `AgentTaskManager._invoke` (lines 106–189): query extraction (outside any
`try`), then the inner `try`, with the outer `except Exception` (line 180)
forwarding every exception to `_create_error_response`. -/
def _invoke (store : TaskStore) (request : SendTaskRequest)
    (outcome : InvokeOutcome) : Except Str SendTaskResponse × TaskStore :=
  match _get_user_query request.params with
  | .error msg => (.error msg, store)
  | .ok _query =>
    match invokeInner store request outcome with
    | (.ok resp, store') => (.ok resp, store')
    | (.error msg, store') =>
        _create_error_response store' request.id request.params.id
          ("Error invoking agent: ".data ++ msg)

/-- `AgentTaskManager.on_send_task` (lines 68–74): validate output modes,
upsert the task, run the pipeline.  The `outcome` parameter is the behavior of
the external agent invocation for this request. -/
def on_send_task (store : TaskStore) (request : SendTaskRequest)
    (outcome : InvokeOutcome) : Except Str SendTaskResponse × TaskStore :=
  if are_modalities_compatible request.params.acceptedOutputModes SUPPORTED_CONTENT_TYPES then
    let store1 := upsert_task store request.params
    _invoke store1 request outcome
  else
    (.ok { id := request.id, result := Option.none, error := some .incompatibleTypes }, store)

/-! ## The agent wrapper (agent.Web3Agent.invoke, lines 231–307)

`invoke` consumes the runner's event stream.  An event's `content.parts` is a
list of parts, each carrying exactly one of a function response, a text
fragment, or a function call (the `elif` chain of lines 267–295); an event
whose `content` is absent or empty contributes no parts.  The stream itself
may end normally, raise `asyncio.TimeoutError`, or raise some other exception
mid-iteration (handled at lines 303–307). -/

/-- A tool-response payload (`part.function_response.response`).
`unserializable` models a payload on which `json.dumps(...,
default=custom_serializer)` raises (e.g. a circular reference); it carries the
payload's `str()` form, which is all the fallback path uses. -/
inductive Payload where
  | val : PyVal → Payload
  | unserializable : Str → Payload
deriving Repr

/-- One member of `event.content.parts`. -/
inductive EvPart where
  | funcResponse : Payload → EvPart
  | text : Str → EvPart
  | funcCall : Str → EvPart
  | other : EvPart
deriving Repr

/-- One event: its (possibly empty) `content.parts` list. -/
abbrev Event := List EvPart

/-- How the event stream terminates when no tool response short-circuits it:
normal exhaustion, `asyncio.TimeoutError`, or another exception (with its
`str(e)` message). -/
inductive StreamEnd where
  | done
  | timeout
  | raised : Str → StreamEnd
deriving Repr

/-- The event stream produced by `self._runner.run_async(...)` for one query. -/
structure EventStream where
  events : List Event
  ending : StreamEnd
deriving Repr

/-- Lines 272–285: serialize a tool-response payload.  A `dict`/`list` (or an
object exposing `__dict__`/`to_dict`) goes through `json.dumps` with
`custom_serializer`; simple types through `str()`; a serialization failure
falls back to `"Response: " + str(final_response)`. -/
def serializeResponse : Payload → Str
  | .val v =>
    match v with
    | .dict _ | .list _ => dumpsVal v
    | _ => pyStr v
  | .unserializable s => "Response: ".data ++ s

/-- The inner `for part in event.content.parts` loop (lines 265–295): the
first function response wins; a non-empty text fragment updates
`last_text_response`; function calls are only logged. -/
def scanParts (parts : List EvPart) (lastText : Option Str) : Payload ⊕ Option Str :=
  match parts with
  | [] => .inr lastText
  | p :: rest =>
    match p with
    | .funcResponse payload => .inl payload
    | .text s => if s.isEmpty then scanParts rest lastText else scanParts rest (some s)
    | .funcCall _ => scanParts rest lastText
    | .other => scanParts rest lastText

/-- The `async for event in events_async` loop of lines 262–301 together with
the handlers of lines 303–307. -/
def invokeLoop (events : List Event) (lastText : Option Str) (ending : StreamEnd) : Str :=
  match events with
  | [] =>
    match ending with
    | .done =>
      match lastText with
      | some t => t
      | Option.none => "No usable response received".data
    | .timeout => "Query timed out".data
    | .raised msg => "Error: ".data ++ msg
  | ev :: rest =>
    match scanParts ev lastText with
    | .inl payload => serializeResponse payload
    | .inr lastText' => invokeLoop rest lastText' ending

/-- `Web3Agent.invoke` (lines 231–307).  The un-initialized guard of lines
233–234 raises before the `try`; once initialized, the whole consumption runs
inside `try ... except`. -/
def Web3Agent_invoke (initialized : Bool) (stream : EventStream) : Except Str Str :=
  if initialized then .ok (invokeLoop stream.events Option.none stream.ending)
  else .error ("Agent not initialized. Call initialize() first.".data)

/-! ## The schema fixer (utils.py)

`fix_openai_validation_errors` and `fix_schema_types_recursive` mutate nested
`dict`/`list` schema objects in place; they are modelled as pure functions
threading the value through each mutation step in program order.  Both
re-traverse subtrees they have already fixed (e.g. the values of
`properties` are fixed by step 2 of `fix_openai_validation_errors` and again
when step 3 recurses into the `properties` dict), so the model uses explicit
fuel, decremented at every recursive call.  `fixMeasure` bounds the recursion
depth: it counts nesting of containers, except that the inert schema
`{"type": "string"}` — the only thing the fixer ever inserts — counts zero,
so every recursive call happens at strictly smaller measure and fuel
`fixMeasure v + 1` is always sufficient. -/

/-- `SchemaFixOptions` (utils.py lines 19–41); `validate_api_key` and
`verbose` only affect logging and are omitted. -/
structure SchemaFixOptions where
  convert_type_arrays_to : Str
  aggressive : Bool
deriving Repr

/-- The schema `{"type": "string"}` inserted as a default `items`. -/
def inertItems : PyVal := .dict [("type".data, .str "string".data)]

/-- Does this member list form exactly the inert `{"type": "string"}`? -/
def isInertKVs (kvs : List (Str × PyVal)) : Bool :=
  match kvs with
  | [(k, .str s)] => k = "type".data && s = "string".data
  | _ => false

mutual

/-- Recursion measure for the schema fixer: container nesting depth, with the
inert `{"type": "string"}` counting zero. -/
def fixMeasure : PyVal → Nat
  | .dict kvs => if isInertKVs kvs then 0 else 1 + fixMeasureKVs kvs
  | .list l => 1 + fixMeasureElems l
  | _ => 0

/-- Maximum measure of the values of a member list. -/
def fixMeasureKVs : List (Str × PyVal) → Nat
  | [] => 0
  | (_, v) :: rest => max (fixMeasure v) (fixMeasureKVs rest)

/-- Maximum measure of the elements of a list. -/
def fixMeasureElems : List PyVal → Nat
  | [] => 0
  | v :: rest => max (fixMeasure v) (fixMeasureElems rest)

end

/-- Is this value a Python `dict`? -/
def isDict : PyVal → Bool
  | .dict _ => true
  | _ => false

/-- `obj.get('type') == 'array'`: the `type` member is present and is the
string `"array"`. -/
def typeIsArrayStr (kvs : List (Str × PyVal)) : Bool :=
  match lookupK kvs ("type".data) with
  | some (.str t) => if t = "array".data then true else false
  | _ => false

/-- `'items' in obj`. -/
def hasItems (kvs : List (Str × PyVal)) : Bool :=
  (lookupK kvs ("items".data)).isSome

/-- Step 1 of `fix_openai_validation_errors` (lines 57–59), also the
aggressive fix of `fix_schema_types_recursive` (lines 115–117): an `array`
schema missing `items` gets `items = {"type": "string"}`. -/
def fixArrayItems (kvs : List (Str × PyVal)) : List (Str × PyVal) :=
  if typeIsArrayStr kvs && !hasItems kvs then putK kvs ("items".data) inertItems
  else kvs

/-- Map a transformation over the values of a member list (in-place mutation
of each `obj[key]` during iteration). -/
def mapVals (g : PyVal → PyVal) (kvs : List (Str × PyVal)) : List (Str × PyVal) :=
  kvs.map (fun kv => (kv.1, g kv.2))

mutual

/-- `fix_openai_validation_errors` (utils.py lines 44–84), fuelled.  Step
order follows the source: the local `array`-missing-`items` fix (lines 57–59),
the `properties`/`args` special case with recursion into each property schema
(lines 62–75), then recursion into every `dict` value and into `dict` items of
`list` values (lines 78–84).  A non-`dict` argument is returned unchanged
(line 53). -/
def fix_openai_validation_errors : Nat → PyVal → PyVal
  | 0, v => v
  | fuel + 1, v =>
    match v with
    | .dict kvs0 => .dict (fixOpenaiKVs fuel kvs0)
    | _ => v

/-- The body of `fix_openai_validation_errors` on a `dict`'s member list. -/
def fixOpenaiKVs (fuel : Nat) (kvs0 : List (Str × PyVal)) : List (Str × PyVal) :=
  -- lines 57–59
  let kvs1 := fixArrayItems kvs0
  -- lines 62–75
  let kvs2 :=
    match lookupK kvs1 ("properties".data) with
    | some (.dict props) =>
      let props1 :=
        match lookupK props ("args".data) with
        | some (.dict args) => setK props ("args".data) (.dict (fixArrayItems args))
        | _ => props
      setK kvs1 ("properties".data) (.dict (mapVals (s2val fuel) props1))
    | _ => kvs1
  -- lines 78–84
  mapVals (s3val fuel) kvs2

/-- Line 73–75: each property schema that is a `dict` is fixed in place. -/
def s2val (fuel : Nat) (v : PyVal) : PyVal :=
  match v with
  | .dict _ => fix_openai_validation_errors fuel v
  | _ => v

/-- Lines 78–84: a `dict` value is fixed recursively; `dict` items inside a
`list` value are fixed; everything else is left alone. -/
def s3val (fuel : Nat) (v : PyVal) : PyVal :=
  match v with
  | .dict _ => fix_openai_validation_errors fuel v
  | .list items =>
    .list (items.map (fun it =>
      if isDict it then fix_openai_validation_errors fuel it else it))
  | _ => v

end

/-- `str(val) if not isinstance(val, str) else val` (line 112). -/
def enumToStr (v : PyVal) : PyVal :=
  match v with
  | .str _ => v
  | _ => .str (pyStr v)

mutual

/-- `fix_schema_types_recursive` (utils.py lines 87–132), fuelled.  For a
`dict`: run the full `fix_openai_validation_errors` pass, coerce a list-valued
`type` to `options.convert_type_arrays_to`, stringify `enum` members
(aggressive), add default `items` to an `array` schema (aggressive), then
recurse into every `dict`/`list` value; for a `list`: recurse into every
`dict`/`list` element. -/
def fix_schema_types_recursive (options : SchemaFixOptions) : Nat → PyVal → PyVal
  | 0, v => v
  | fuel + 1, v =>
    match v with
    | .dict kvs0 =>
      -- line 101: the full fix_openai_validation_errors pass on this object
      let kvs1 := fixOpenaiKVs fuel kvs0
      -- lines 104–107
      let kvs2 :=
        match lookupK kvs1 ("type".data) with
        | some (.list _) => setK kvs1 ("type".data) (.str options.convert_type_arrays_to)
        | _ => kvs1
      -- lines 110–112
      let kvs3 :=
        if options.aggressive then
          match lookupK kvs2 ("enum".data) with
          | some (.list vals) => setK kvs2 ("enum".data) (.list (vals.map enumToStr))
          | _ => kvs2
        else kvs2
      -- lines 115–117
      let kvs4 :=
        if options.aggressive then fixArrayItems kvs3 else kvs3
      -- lines 122–125
      .dict (mapVals (schemaSubVal options fuel) kvs4)
    | .list items =>
      -- lines 127–132
      .list (items.map (schemaSubVal options fuel))
    | _ => v

/-- Lines 122–125 / 129–132: recursion applies only to `dict` and `list`
children. -/
def schemaSubVal (options : SchemaFixOptions) (fuel : Nat) (v : PyVal) : PyVal :=
  match v with
  | .dict _ => fix_schema_types_recursive options fuel v
  | .list _ => fix_schema_types_recursive options fuel v
  | _ => v

end

/-- `fix_openai_validation_errors` with saturated fuel. -/
def fixOpenai (v : PyVal) : PyVal :=
  fix_openai_validation_errors (fixMeasure v + 1) v

/-- `fix_schema_types_recursive` with saturated fuel: the schema normalizer
as invoked on a tool's parameter schema. -/
def fixSchema (options : SchemaFixOptions) (v : PyVal) : PyVal :=
  fix_schema_types_recursive options (fixMeasure v + 1) v

/-! ## Analysis predicates

Decidable predicates used to state and prove properties of the definitions
above; they introduce no behavior of their own. -/

/-- Is this value a JSON primitive (string, number, boolean, null)? -/
def isPrimVal : PyVal → Bool
  | .str _ | .int _ | .bool _ | .none => true
  | _ => false

/-- Does every member of this mapping carry a JSON-primitive value? -/
def allPrimVals (kvs : List (Str × PyVal)) : Bool :=
  kvs.all (fun kv => isPrimVal kv.2)

/-- Does the remaining input not begin with a decimal digit?  (Needed so that
a printed integer is read back whole.) -/
def noDigitHead : Str → Bool
  | [] => true
  | c :: _ => !isDigitCh c

/-- Is this value a Python `str`? -/
def isStrVal : PyVal → Bool
  | .str _ => true
  | _ => false

/-- The local guarantee of `fix_openai_validation_errors` lines 57–59: not an
`array`-typed schema missing `items` (the step-1 fix does not fire). -/
def s1ok (kvs : List (Str × PyVal)) : Bool :=
  !(typeIsArrayStr kvs && !hasItems kvs)

/-- `isinstance(obj['type'], list)`. -/
def typeIsList (kvs : List (Str × PyVal)) : Bool :=
  match lookupK kvs ("type".data) with
  | some (.list _) => true
  | _ => false

/-- The local guarantee of `fix_schema_types_recursive` lines 104–107: the
`type` member is not a list. -/
def tOk (kvs : List (Str × PyVal)) : Bool :=
  !typeIsList kvs

/-- The local guarantee of `fix_schema_types_recursive` lines 110–112 under
aggressive mode: a list-valued `enum` carries only strings. -/
def eOk (options : SchemaFixOptions) (kvs : List (Str × PyVal)) : Bool :=
  if options.aggressive then
    match lookupK kvs ("enum".data) with
    | some (.list vals) => vals.all isStrVal
    | _ => true
  else true

mutual

/-- Fixed point of `fix_openai_validation_errors`: every `dict` node its
traversal reaches satisfies `s1ok`.  A non-`dict` argument is untouched. -/
def openaiFixedV : PyVal → Bool
  | .dict kvs => s1ok kvs && openaiFixedKVs kvs
  | _ => true

/-- All values of a member list are fixed (as traversed from a `dict`). -/
def openaiFixedKVs : List (Str × PyVal) → Bool
  | [] => true
  | (_, v) :: rest => openaiFixedInner v && openaiFixedKVs rest

/-- A `dict` value is reached recursively; `dict` items of a `list` value are
reached; nothing else is. -/
def openaiFixedInner : PyVal → Bool
  | .dict kvs => s1ok kvs && openaiFixedKVs kvs
  | .list items => openaiFixedItems items
  | _ => true

/-- `dict` items of a list value are fixed. -/
def openaiFixedItems : List PyVal → Bool
  | [] => true
  | v :: rest =>
    (match v with
     | .dict kvs => s1ok kvs && openaiFixedKVs kvs
     | _ => true) && openaiFixedItems rest

end

mutual

/-- Fixed point of `fix_schema_types_recursive` (for the given options):
every `dict` node its traversal reaches satisfies `s1ok`, `tOk` and `eOk`,
and the traversal descends into all `dict`/`list` children. -/
def schemaFixedV (options : SchemaFixOptions) : PyVal → Bool
  | .dict kvs => s1ok kvs && tOk kvs && eOk options kvs && schemaFixedKVs options kvs
  | .list items => schemaFixedItems options items
  | _ => true

/-- All values of a member list are schema-fixed. -/
def schemaFixedKVs (options : SchemaFixOptions) : List (Str × PyVal) → Bool
  | [] => true
  | (_, v) :: rest => schemaFixedSub options v && schemaFixedKVs options rest

/-- A `dict`/`list` child is schema-fixed; a primitive child is untouched. -/
def schemaFixedSub (options : SchemaFixOptions) : PyVal → Bool
  | .dict kvs => s1ok kvs && tOk kvs && eOk options kvs && schemaFixedKVs options kvs
  | .list items => schemaFixedItems options items
  | _ => true

/-- All items of a list are schema-fixed. -/
def schemaFixedItems (options : SchemaFixOptions) : List PyVal → Bool
  | [] => true
  | v :: rest => schemaFixedSub options v && schemaFixedItems options rest

end

/-- Lines 62–75 of `fix_openai_validation_errors`, factored out of
`fixOpenaiKVs` for the analysis: the `properties`/`args` special case. -/
def openaiProps (fuel : Nat) (kvs : List (Str × PyVal)) : List (Str × PyVal) :=
  match lookupK kvs ("properties".data) with
  | some (.dict props) =>
    let props1 :=
      match lookupK props ("args".data) with
      | some (.dict args) => setK props ("args".data) (.dict (fixArrayItems args))
      | _ => props
    setK kvs ("properties".data) (.dict (mapVals (s2val fuel) props1))
  | _ => kvs

/-- Lines 104–107 of `fix_schema_types_recursive`, factored out: a list-valued
`type` is coerced to `options.convert_type_arrays_to`. -/
def schemaStep2 (options : SchemaFixOptions) (kvs : List (Str × PyVal)) :
    List (Str × PyVal) :=
  match lookupK kvs ("type".data) with
  | some (.list _) => setK kvs ("type".data) (.str options.convert_type_arrays_to)
  | _ => kvs

/-- Lines 110–112, factored out: aggressive mode stringifies `enum` members. -/
def schemaStep3 (options : SchemaFixOptions) (kvs : List (Str × PyVal)) :
    List (Str × PyVal) :=
  if options.aggressive then
    match lookupK kvs ("enum".data) with
    | some (.list vals) => setK kvs ("enum".data) (.list (vals.map enumToStr))
    | _ => kvs
  else kvs

/-- Lines 115–117, factored out: aggressive mode adds default `items` to an
`array` schema. -/
def schemaStep4 (options : SchemaFixOptions) (kvs : List (Str × PyVal)) :
    List (Str × PyVal) :=
  if options.aggressive then fixArrayItems kvs else kvs

/-- Does this part list carry no function response? -/
def respFreeParts (parts : List EvPart) : Bool :=
  parts.all (fun p =>
    match p with
    | .funcResponse _ => false
    | _ => true)

/-- The non-empty text fragments of one event's parts, in order. -/
def textsOfParts (parts : List EvPart) : List Str :=
  parts.filterMap (fun p =>
    match p with
    | .text s => if s.isEmpty then Option.none else some s
    | _ => Option.none)

/-- All non-empty text fragments observed across a stream's events. -/
def textsOf (events : List Event) : List Str :=
  match events with
  | [] => []
  | ev :: rest => textsOfParts ev ++ textsOf rest

/-- The last element of `l` if it has one, else the default `d`: the value of
`last_text_response` after observing the fragments `l`, having started from
`d`. -/
def lastOr (l : List Str) (d : Option Str) : Option Str :=
  match l.getLast? with
  | some t => some t
  | Option.none => d

/-! ## Concrete fixtures used by the witnesses and counterexamples -/

/-- A well-formed request: compatible output modes, text first part. -/
def exReq : SendTaskRequest :=
  { id := "r1".data
    params :=
      { id := "t1".data
        sessionId := "s1".data
        message := { role := "user".data, parts := [.text "check balance".data] }
        acceptedOutputModes := some ["text".data] } }

/-- A request whose message's first part is a `DataPart`, not a `TextPart`. -/
def exBadReq : SendTaskRequest :=
  { id := "r2".data
    params :=
      { id := "t2".data
        sessionId := "s2".data
        message := { role := "user".data, parts := [.data (.dict [])] }
        acceptedOutputModes := some ["text".data] } }

/-- The task store after a first successful call on `exReq`. -/
def exStore1 : TaskStore := (on_send_task [] exReq (.ok (.str "a".data))).2

/-- The options every call site passes (agent.py lines 58–63):
fallback type `"string"`, aggressive mode on. -/
def exOpts : SchemaFixOptions :=
  { convert_type_arrays_to := "string".data, aggressive := true }

/-- Options exhibiting the non-idempotence: fallback type `"array"`,
aggressive mode off. -/
def exOptsArr : SchemaFixOptions :=
  { convert_type_arrays_to := "array".data, aggressive := false }

/-- A schema whose `type` is a list, so that the fallback coercion fires. -/
def exListTypeSchema : PyVal := .dict [("type".data, .list [.str "string".data])]

/-- A mapping with JSON-primitive values, as a tool might return. -/
def exDict : List (Str × PyVal) :=
  [("balance".data, .str "1.5 ETH".data), ("block".data, .int 123),
   ("ok".data, .bool true), ("err".data, .none)]

/-- A transformation that preserves each constructor's kind and fixes every
primitive (as the schema fixers' recursion steps do). -/
def shapePreserving (g : PyVal → PyVal) : Prop :=
  (∀ s, g (.str s) = .str s) ∧ (∀ n, g (.int n) = .int n) ∧
  (∀ b, g (.bool b) = .bool b) ∧ (g .none = .none) ∧
  (∀ l, ∃ l', g (.list l) = .list l') ∧ (∀ kvs, ∃ kvs', g (.dict kvs) = .dict kvs')

/-! ## Task store lemmas -/

theorem storeGet_storeSet_self (store : TaskStore) (id : Str) (t : Task) :
    storeGet (storeSet store id t) id = some t := by
  induction store with
  | nil => simp [storeSet, storeGet]
  | cons kv rest ih =>
    obtain ⟨k, t'⟩ := kv
    by_cases h : k = id <;> simp [storeSet, storeGet, h, ih]

theorem upsert_of_mem {store : TaskStore} {params : TaskSendParams} {t : Task}
    (h : storeGet store params.id = some t) : upsert_task store params = store := by
  simp [upsert_task, h]

theorem storeGet_upsert_isSome (store : TaskStore) (params : TaskSendParams) :
    (storeGet (upsert_task store params) params.id).isSome = true := by
  unfold upsert_task
  cases h : storeGet store params.id with
  | some t => simp [h]
  | none => simp [storeGet_storeSet_self]

/-! ## Claims C1–C3: the error-handling paths of `on_send_task` -/

/-- C1.  The claim says a timed-out agent invocation is reported as a
`SendTaskResponse` wrapping a `COMPLETED` task whose sole new artifact is a
text part mentioning the timeout duration.  The code cannot do this:
`_create_error_response` calls `asyncio.run` from inside the running event
loop, which raises `RuntimeError`, so the handler re-raises
`ValueError(error_msg)`; that exception escapes through the outer
`except Exception` handler (whose own `_create_error_response` call fails the
same way).  `on_send_task` therefore raises
`ValueError("Error invoking agent: Timeout waiting for response from
blockchain after 45 seconds")` and the task store keeps only the upserted
record — no artifact is ever appended. -/
theorem C1_timeout_raises_instead_of_completed_task
    (store : TaskStore) (request : SendTaskRequest) (q : Str)
    (hM : are_modalities_compatible request.params.acceptedOutputModes
            SUPPORTED_CONTENT_TYPES = true)
    (hQ : _get_user_query request.params = .ok q) :
    on_send_task store request .timeout =
      (.error ("Error invoking agent: ".data ++ timeoutMsg),
       upsert_task store request.params) := by
  simp [on_send_task, hM, _invoke, hQ, invokeInner, _create_error_response, asyncioRun]

theorem C1_witness :
    on_send_task [] exReq .timeout =
      (.error ("Error invoking agent: ".data ++ timeoutMsg),
       upsert_task [] exReq.params) :=
  C1_timeout_raises_instead_of_completed_task [] exReq ("check balance".data) rfl rfl

/-- C2.  The claim says every exception during pipeline steps 1–5 is caught
and converted into a task-shaped response, the only escaping exception being a
task-store update failure.  On the code, an exception raised by the agent
invocation reaches the outer `except Exception` handler, whose
`_create_error_response` call fails (`asyncio.run` inside the running event
loop) and re-raises `ValueError("Error invoking agent: " + str(e))`, so the
exception escapes `on_send_task`; step 1 (query extraction) is not even inside
the `try`.  This theorem exhibits the escape for an arbitrary agent
exception. -/
theorem C2_pipeline_exception_escapes
    (store : TaskStore) (request : SendTaskRequest) (q msg : Str)
    (hM : are_modalities_compatible request.params.acceptedOutputModes
            SUPPORTED_CONTENT_TYPES = true)
    (hQ : _get_user_query request.params = .ok q) :
    on_send_task store request (.raised msg) =
      (.error ("Error invoking agent: ".data ++ msg),
       upsert_task store request.params) := by
  simp [on_send_task, hM, _invoke, hQ, invokeInner, _create_error_response, asyncioRun]

theorem C2_witness :
    on_send_task [] exReq (.raised ("boom".data)) =
      (.error ("Error invoking agent: boom".data), upsert_task [] exReq.params) := by
  have h := C2_pipeline_exception_escapes [] exReq ("check balance".data) ("boom".data) rfl rfl
  simpa using h

/-- C3 counterexample.  The claim says a request whose message's first part is
not text yields a `ValidationError`-class response and leaves the task store
unchanged (task not created).  On the concrete request `exBadReq` (first part
a `DataPart`) against the empty store, `on_send_task` instead raises
`ValueError("Only text parts are supported")` — no response object at all —
and the store now contains the freshly upserted task record, because
`upsert_task` runs before query extraction. -/
theorem C3_counterexample :
    (on_send_task [] exBadReq .timeout).1 =
        .error ("Only text parts are supported".data) ∧
    (on_send_task [] exBadReq .timeout).2 =
      [("t2".data,
        { id := "t2".data
          status := { state := .SUBMITTED
                      message := some { role := "user".data
                                        parts := [.data (.dict [])] } }
          artifacts := Option.none })] :=
  ⟨rfl, rfl⟩

/-- C3 (amended).  A task request whose message's first part is not a text
part makes `on_send_task` raise the `ValueError` from `_get_user_query`
(no response is returned), and the task record **is** created: the upsert runs
before query extraction, so the store afterwards contains the task id; its
status and artifacts are never updated beyond the upsert. -/
theorem C3_nontext_first_part_raises
    (store : TaskStore) (request : SendTaskRequest) (msg : Str)
    (outcome : InvokeOutcome)
    (hM : are_modalities_compatible request.params.acceptedOutputModes
            SUPPORTED_CONTENT_TYPES = true)
    (hQ : _get_user_query request.params = .error msg) :
    on_send_task store request outcome =
      (.error msg, upsert_task store request.params) ∧
    (storeGet (upsert_task store request.params) request.params.id).isSome = true := by
  constructor
  · simp [on_send_task, hM, _invoke, hQ]
  · exact storeGet_upsert_isSome store request.params

theorem C3_witness :
    on_send_task [] exBadReq .timeout =
      (.error ("Only text parts are supported".data), upsert_task [] exBadReq.params) ∧
    (storeGet (upsert_task [] exBadReq.params) ("t2".data)).isSome = true := by
  have h := C3_nontext_first_part_raises [] exBadReq
    ("Only text parts are supported".data) .timeout rfl rfl
  simpa using h

/-! ## Claims C4–C5: the success path of `on_send_task` -/

/-- Inversion of the success path: if `_invoke` returned a response (rather
than raising), then the agent invocation returned a value, classification
succeeded, and the response wraps exactly the task produced by
`_update_store` for this call's parts and state. -/
theorem invoke_ok_inversion {store : TaskStore} {request : SendTaskRequest}
    {outcome : InvokeOutcome} {resp : SendTaskResponse} {store' : TaskStore}
    (h : _invoke store request outcome = (.ok resp, store')) :
    ∃ v parts task',
      outcome = .ok v ∧ classify v = .ok parts ∧
      _update_store store request.params.id
        { state := taskStateOf v
          message := some { role := "agent".data, parts := parts } }
        [{ parts := parts }] = (.ok task', store') ∧
      resp = { id := request.id, result := some task', error := Option.none } := by
  unfold _invoke at h
  split at h
  · simp at h
  · rcases hI : invokeInner store request outcome with ⟨r, st⟩
    rw [hI] at h
    rcases r with msg | resp'
    · simp [_create_error_response, asyncioRun] at h
    · simp at h
      obtain ⟨hresp, hst⟩ := h
      rcases outcome with v | _ | msg
      · simp only [invokeInner] at hI
        split at hI
        · simp at hI
        · split at hI
          · simp at hI
          · rename_i parts hc
            split at hI
            · rename_i task'' store''' hupd
              simp at hI
              obtain ⟨h1, h2⟩ := hI
              exact ⟨v, parts, task'', rfl, hc,
                by rw [hupd, h2, hst], by rw [← hresp, ← h1]⟩
            · simp at hI
      · simp only [invokeInner] at hI
        simp [_create_error_response, asyncioRun] at hI
      · simp only [invokeInner] at hI
        simp at hI

/-- C4.  Any successful `on_send_task` call on an already-existing task id
strictly grows that task's artifact list: the previously stored artifacts are
retained in order and exactly one new artifact (this call's parts) is
appended; the stored record is the returned task, whose status message is the
one produced by this call. -/
theorem C4_artifact_list_append_only
    {store store' : TaskStore} {request : SendTaskRequest} {outcome : InvokeOutcome}
    {resp : SendTaskResponse} {t oldTask : Task}
    (h : on_send_task store request outcome = (.ok resp, store'))
    (hr : resp.result = some t)
    (hold : storeGet store request.params.id = some oldTask) :
    storeGet store' request.params.id = some t ∧
    ∃ parts, t.status.message = some { role := "agent".data, parts := parts } ∧
      t.artifacts = some (oldTask.artifacts.getD [] ++ [{ parts := parts }]) := by
  unfold on_send_task at h
  split at h
  · rw [upsert_of_mem hold] at h
    obtain ⟨v, parts, task', _, _, hupd, hresp⟩ := invoke_ok_inversion h
    subst hresp
    simp at hr
    subst hr
    unfold _update_store at hupd
    rw [hold] at hupd
    simp at hupd
    obtain ⟨h1, h2⟩ := hupd
    subst h1
    rw [← h2]
    refine ⟨storeGet_storeSet_self _ _ _, parts, rfl, rfl⟩
  · simp at h
    obtain ⟨h1, _⟩ := h
    rw [← h1] at hr
    simp at hr

theorem C4_witness :
    ∃ t, storeGet (on_send_task exStore1 exReq (.ok (.str "b".data))).2 exReq.params.id
        = some t ∧
      ∃ parts, t.status.message = some ⟨"agent".data, parts⟩ ∧
        t.artifacts = some ([(⟨[.text "a".data]⟩ : Artifact)] ++ [⟨parts⟩]) := by
  have h := @C4_artifact_list_append_only exStore1
    (on_send_task exStore1 exReq (.ok (.str "b".data))).2 exReq (.ok (.str "b".data))
    (⟨"r1".data,
      some ⟨"t1".data, ⟨.COMPLETED, some ⟨"agent".data, [.text "b".data]⟩⟩,
        some [⟨[.text "a".data]⟩, ⟨[.text "b".data]⟩]⟩,
      Option.none⟩ : SendTaskResponse)
    ⟨"t1".data, ⟨.COMPLETED, some ⟨"agent".data, [.text "b".data]⟩⟩,
      some [⟨[.text "a".data]⟩, ⟨[.text "b".data]⟩]⟩
    ⟨"t1".data, ⟨.COMPLETED, some ⟨"agent".data, [.text "a".data]⟩⟩,
      some [⟨[.text "a".data]⟩]⟩
    rfl rfl rfl
  exact ⟨_, h.1, h.2⟩

/-- C5.  On the success path, the resulting task state is `INPUT_REQUIRED`
exactly when the literal substring `"MISSING_INFO:"` occurs in the string form
of the agent's response, and `COMPLETED` otherwise; the status message carries
exactly the parts the classifier produced for that response. -/
theorem C5_sentinel_determines_state
    (store : TaskStore) (request : SendTaskRequest) (q : Str) (v : PyVal)
    (parts : List Part)
    (hM : are_modalities_compatible request.params.acceptedOutputModes
            SUPPORTED_CONTENT_TYPES = true)
    (hQ : _get_user_query request.params = .ok q)
    (hv : classify v = .ok parts) :
    ∃ t store',
      on_send_task store request (.ok v) =
        (.ok { id := request.id, result := some t, error := Option.none }, store') ∧
      t.status.state =
        (if hasSub (pyStr v) ("MISSING_INFO:".data) then TaskState.INPUT_REQUIRED
         else TaskState.COMPLETED) ∧
      t.status.message = some { role := "agent".data, parts := parts } := by
  obtain ⟨oldT, hOld⟩ :
      ∃ oldT, storeGet (upsert_task store request.params) request.params.id = some oldT := by
    have h := storeGet_upsert_isSome store request.params
    cases hc : storeGet (upsert_task store request.params) request.params.id with
    | some t => exact ⟨t, rfl⟩
    | none => rw [hc] at h; simp at h
  refine ⟨{ oldT with
            status := { state := taskStateOf v
                        message := some { role := "agent".data, parts := parts } }
            artifacts := some (oldT.artifacts.getD [] ++ [{ parts := parts }]) },
          storeSet (upsert_task store request.params) request.params.id
            { oldT with
              status := { state := taskStateOf v
                          message := some { role := "agent".data, parts := parts } }
              artifacts := some (oldT.artifacts.getD [] ++ [{ parts := parts }]) },
          ?_, ?_, rfl⟩
  · cases v <;>
      simp_all [on_send_task, hM, _invoke, hQ, invokeInner, classify, _update_store, hOld]
  · simp [taskStateOf]

theorem C5_witness :
    ∃ t store',
      on_send_task [] exReq (.ok (.str "Balance: 1.5 ETH".data)) =
        (.ok { id := "r1".data, result := some t, error := Option.none }, store') ∧
      t.status.state = TaskState.COMPLETED ∧
      t.status.message =
        some { role := "agent".data, parts := [.text "Balance: 1.5 ETH".data] } := by
  have h := C5_sentinel_determines_state [] exReq ("check balance".data)
    (.str "Balance: 1.5 ETH".data) [.text "Balance: 1.5 ETH".data] rfl rfl rfl
  exact h

/-! ## Printer / parser round trip (for C6 and C7) -/

theorem skipWs_cons_not_ws {c : Char} (h : isWs c = false) (s : Str) :
    skipWs (c :: s) = c :: s := by
  simp [skipWs, h]

theorem parseStrBody_escape (s rest : Str) :
    parseStrBody (escape s ++ '"' :: rest) = some (s, rest) := by
  induction s with
  | nil =>
    rw [show escape [] ++ '"' :: rest = '"' :: rest from rfl, parseStrBody.eq_def]
    simp
  | cons c cs ih =>
    by_cases hc : c = '"'
    · subst hc
      rw [show escape ('"' :: cs) ++ '"' :: rest
            = '\\' :: '"' :: (escape cs ++ '"' :: rest) from rfl,
        parseStrBody.eq_def]
      simp [ih]
    · by_cases hb : c = '\\'
      · subst hb
        rw [show escape ('\\' :: cs) ++ '"' :: rest
              = '\\' :: '\\' :: (escape cs ++ '"' :: rest) from rfl,
          parseStrBody.eq_def]
        simp [ih]
      · have h1 : escape (c :: cs) ++ '"' :: rest = c :: (escape cs ++ '"' :: rest) := by
          simp [escape, escChar, hc, hb]
        rw [h1, parseStrBody.eq_def]
        simp [hc, hb, ih]

theorem digitVal_digitCh {d : Nat} (h : d < 10) : digitVal (digitCh d) = d := by
  interval_cases d <;> decide

theorem isDigitCh_digitCh {d : Nat} (h : d < 10) : isDigitCh (digitCh d) = true := by
  interval_cases d <;> decide

theorem foldl_digits_reverse (ds : List Nat) (h : ∀ d ∈ ds, d < 10) (a : Nat) :
    ((ds.map digitCh).reverse).foldl (fun x c => x * 10 + digitVal c) a
      = a * 10 ^ ds.length + Nat.ofDigits 10 ds := by
  induction ds generalizing a with
  | nil => simp [Nat.ofDigits]
  | cons d t ih =>
    have hd : d < 10 := h d (List.mem_cons_self d t)
    have ht : ∀ x ∈ t, x < 10 := fun x hx => h x (List.mem_cons_of_mem d hx)
    simp only [List.map_cons, List.reverse_cons, List.foldl_append, List.foldl_cons,
      List.foldl_nil, ih ht, digitVal_digitCh hd, Nat.ofDigits_cons, List.length_cons]
    ring

theorem charsToNat_natChars (n : Nat) : charsToNat (natChars n) = n := by
  by_cases h : n = 0
  · subst h; decide
  · have hd : ∀ d ∈ Nat.digits 10 n, d < 10 :=
      fun d hdm => Nat.digits_lt_base (by norm_num) hdm
    simp only [charsToNat, natChars, h, if_false]
    rw [foldl_digits_reverse _ hd 0]
    simp [Nat.ofDigits_digits]

theorem natChars_all_digits (n : Nat) : ∀ c ∈ natChars n, isDigitCh c = true := by
  intro c hc
  by_cases h : n = 0
  · subst h; simp [natChars] at hc; subst hc; decide
  · simp only [natChars, h, if_false, List.mem_reverse, List.mem_map] at hc
    obtain ⟨d, hd, rfl⟩ := hc
    exact isDigitCh_digitCh (Nat.digits_lt_base (by norm_num) hd)

theorem natChars_ne_nil (n : Nat) : natChars n ≠ [] := by
  by_cases h : n = 0
  · subst h; decide
  · simp [natChars, h, Nat.digits_ne_nil_iff_ne_zero]

theorem takeWhile_digits_append (A B : Str) (hA : ∀ c ∈ A, isDigitCh c = true)
    (hB : noDigitHead B = true) :
    (A ++ B).takeWhile isDigitCh = A ∧ (A ++ B).dropWhile isDigitCh = B := by
  induction A with
  | nil =>
    cases B with
    | nil => simp
    | cons b bs =>
      simp only [noDigitHead, Bool.not_eq_true'] at hB
      simp [List.takeWhile, List.dropWhile, hB]
  | cons a as ih =>
    have ha : isDigitCh a = true := hA a (List.mem_cons_self a as)
    have has : ∀ c ∈ as, isDigitCh c = true := fun c hc => hA c (List.mem_cons_of_mem a hc)
    obtain ⟨h1, h2⟩ := ih has
    simp [List.takeWhile, List.dropWhile, ha, h1, h2]

theorem digit_not_special {c : Char} (h : isDigitCh c = true) :
    isWs c = false ∧ c ≠ '{' ∧ c ≠ '[' ∧ c ≠ '"' ∧ c ≠ 't' ∧ c ≠ 'f' ∧ c ≠ 'n' ∧ c ≠ '-' := by
  refine ⟨?_, ?_, ?_, ?_, ?_, ?_, ?_, ?_⟩
  · by_cases h1 : c = ' '
    · rw [h1] at h; exact absurd h (by decide)
    · by_cases h2 : c = '\t'
      · rw [h2] at h; exact absurd h (by decide)
      · by_cases h3 : c = '\n'
        · rw [h3] at h; exact absurd h (by decide)
        · by_cases h4 : c = '\r'
          · rw [h4] at h; exact absurd h (by decide)
          · simp [isWs, h1, h2, h3, h4]
  all_goals intro hEq; rw [hEq] at h; exact absurd h (by decide)

theorem parseVal_ws_cons {c : Char} (hc : isWs c = true) (fuel : Nat) (s : Str) :
    parseVal (fuel + 1) (c :: s) = parseVal (fuel + 1) s := by
  simp [parseVal, skipWs, hc]

theorem parseMembers_ws_cons {c : Char} (hc : isWs c = true) (fuel : Nat) (s : Str) :
    parseMembers (fuel + 1) (c :: s) = parseMembers (fuel + 1) s := by
  simp [parseMembers, skipWs, hc]

theorem parseVal_digit_head (fuel : Nat) (c : Char) (r : Str) (h : isDigitCh c = true) :
    parseVal (fuel + 1) (c :: r)
      = some (.int (charsToNat ((c :: r).takeWhile isDigitCh) : Int),
              (c :: r).dropWhile isDigitCh) := by
  obtain ⟨hws, h1, h2, h3, h4, h5, h6, h7⟩ := digit_not_special h
  rw [parseVal.eq_def]
  simp only [skipWs_cons_not_ws hws]
  simp only [h1, h2, h3, h4, h5, h6, h7, if_false, h, if_true]

theorem parseVal_intChars (n : Int) (rest : Str) (fuel : Nat)
    (hB : noDigitHead rest = true) :
    parseVal (fuel + 1) (intChars n ++ rest) = some (.int n, rest) := by
  by_cases hn : n < 0
  · have hm := natChars_all_digits (-n).toNat
    obtain ⟨ht, hd⟩ := takeWhile_digits_append (natChars (-n).toNat) rest hm hB
    have hne := natChars_ne_nil (-n).toNat
    obtain ⟨c, cs, hcc⟩ : ∃ c cs, natChars (-n).toNat = c :: cs := by
      cases h : natChars (-n).toNat with
      | nil => exact absurd h hne
      | cons c cs => exact ⟨c, cs, rfl⟩
    have hneg : intChars n ++ rest = '-' :: (natChars (-n).toNat ++ rest) := by
      simp [intChars, hn]
    have hred : parseVal (fuel + 1) ('-' :: (natChars (-n).toNat ++ rest))
        = (match (natChars (-n).toNat ++ rest).takeWhile isDigitCh with
           | [] => Option.none
           | ds => some (.int (-(charsToNat ds : Int)),
               (natChars (-n).toNat ++ rest).dropWhile isDigitCh)) := rfl
    rw [hneg, hred, ht, hd, hcc]
    show (some (PyVal.int (-(charsToNat (c :: cs) : Int)), rest) : Option (PyVal × Str))
        = some (PyVal.int n, rest)
    rw [← hcc, charsToNat_natChars]
    have h9 : (-(((-n).toNat : Nat) : Int)) = n := by omega
    rw [h9]
  · have hm := natChars_all_digits n.toNat
    obtain ⟨ht, hd⟩ := takeWhile_digits_append (natChars n.toNat) rest hm hB
    have hne := natChars_ne_nil n.toNat
    obtain ⟨c, cs, hcc⟩ : ∃ c cs, natChars n.toNat = c :: cs := by
      cases h : natChars n.toNat with
      | nil => exact absurd h hne
      | cons c cs => exact ⟨c, cs, rfl⟩
    have hcdig : isDigitCh c = true := hm c (by rw [hcc]; exact List.mem_cons_self c cs)
    have hpos : intChars n ++ rest = c :: (cs ++ rest) := by
      simp [intChars, hn, hcc]
    rw [hpos, parseVal_digit_head fuel c (cs ++ rest) hcdig]
    rw [show c :: (cs ++ rest) = (c :: cs) ++ rest from rfl, ← hcc, ht, hd,
      charsToNat_natChars]
    have h9 : ((n.toNat : Nat) : Int) = n := by omega
    rw [h9]

theorem parseVal_dumps_prim (p : PyVal) (hp : isPrimVal p = true) (rest : Str)
    (fuel : Nat) (hB : noDigitHead rest = true) :
    parseVal (fuel + 1) (dumpsVal p ++ rest) = some (p, rest) := by
  cases p with
  | str s =>
    have hred : parseVal (fuel + 1) (dumpsVal (.str s) ++ rest)
        = (match parseStrBody ((escape s ++ ['"']) ++ rest) with
           | some (s1, r1) => some (.str s1, r1)
           | Option.none => Option.none) := rfl
    rw [hred, List.append_assoc]
    simp only [List.singleton_append]
    rw [parseStrBody_escape]
  | int n => exact parseVal_intChars n rest fuel hB
  | bool b => cases b <;> rfl
  | none => rfl
  | list l => simp [isPrimVal] at hp
  | dict kvs => simp [isPrimVal] at hp

theorem dumpsKVs_length_ge (kvs : List (Str × PyVal)) :
    kvs.length ≤ (dumpsKVs kvs).length := by
  induction kvs with
  | nil => simp [dumpsKVs]
  | cons kv t ih =>
    obtain ⟨k, v⟩ := kv
    cases t with
    | nil => simp [dumpsKVs]
    | cons kv2 t2 =>
      have h2 := ih
      rw [show dumpsKVs ((k, v) :: kv2 :: t2)
            = ('"' :: (escape k ++ '"' :: ':' :: ' ' :: dumpsVal v))
              ++ ',' :: ' ' :: dumpsKVs (kv2 :: t2) from rfl]
      simp only [List.length_cons, List.length_append] at h2 ⊢
      omega

theorem parseMembers_dumps (kvs : List (Str × PyVal)) (rest : Str) (fuel : Nat)
    (hne : kvs ≠ []) (hprim : allPrimVals kvs = true) (hfuel : kvs.length < fuel) :
    parseMembers fuel (dumpsKVs kvs ++ '}' :: rest) = some (kvs, rest) := by
  induction kvs generalizing fuel rest with
  | nil => exact absurd rfl hne
  | cons kv tail ih =>
    obtain ⟨k, v⟩ := kv
    have hsplit : isPrimVal v = true ∧ tail.all (fun kv => isPrimVal kv.2) = true := by
      have hall := hprim
      unfold allPrimVals at hall
      rw [List.all_cons, Bool.and_eq_true] at hall
      exact hall
    have hv : isPrimVal v = true := hsplit.1
    cases fuel with
    | zero => omega
    | succ f =>
    cases f with
    | zero => simp at hfuel
    | succ f' =>
    cases tail with
    | nil =>
      rw [show dumpsKVs [(k, v)] ++ '}' :: rest
            = '"' :: (escape k ++ '"' :: ':' :: ' ' :: (dumpsVal v ++ '}' :: rest))
          from by simp [dumpsKVs]]
      rw [parseMembers.eq_def]
      simp only []
      rw [skipWs_cons_not_ws (by decide)]
      simp only []
      rw [parseStrBody_escape]
      simp only []
      rw [skipWs_cons_not_ws (by decide)]
      simp only []
      rw [parseVal_ws_cons (by decide),
        parseVal_dumps_prim v hv ('}' :: rest) f' rfl]
      simp only []
      rw [skipWs_cons_not_ws (by decide)]
      rfl
    | cons kv2 tail2 =>
      have hne2 : kv2 :: tail2 ≠ [] := by simp
      have hprim2 : allPrimVals (kv2 :: tail2) = true := hsplit.2
      have hfuel2 : (kv2 :: tail2).length < f' + 1 := by
        simp at hfuel ⊢
        omega
      rw [show dumpsKVs ((k, v) :: kv2 :: tail2) ++ '}' :: rest
            = '"' :: (escape k ++ '"' :: ':' :: ' '
                :: (dumpsVal v ++ ',' :: ' ' :: (dumpsKVs (kv2 :: tail2) ++ '}' :: rest)))
          from by simp [dumpsKVs]]
      rw [parseMembers.eq_def]
      simp only []
      rw [skipWs_cons_not_ws (by decide)]
      simp only []
      rw [parseStrBody_escape]
      simp only []
      rw [skipWs_cons_not_ws (by decide)]
      simp only []
      rw [parseVal_ws_cons (by decide),
        parseVal_dumps_prim v hv
          (',' :: ' ' :: (dumpsKVs (kv2 :: tail2) ++ '}' :: rest)) f' rfl]
      simp only []
      rw [skipWs_cons_not_ws (by decide)]
      simp only []
      rw [parseMembers_ws_cons (by decide), ih _ _ hne2 hprim2 hfuel2]

theorem parseVal_brace (f : Nat) (X : Str) :
    parseVal (f + 1) ('{' :: X)
      = (match skipWs X with
         | '}' :: r2 => some (.dict [], r2)
         | _ =>
           (match parseMembers f X with
            | some (kvs1, r1) => some (.dict kvs1, r1)
            | Option.none => Option.none)) := rfl

theorem loads_dumps_dict (kvs : List (Str × PyVal)) (hprim : allPrimVals kvs = true) :
    loads (dumpsVal (.dict kvs)) = some (.dict kvs) := by
  cases kvs with
  | nil => rfl
  | cons kv tail =>
    obtain ⟨k, v⟩ := kv
    have hshape : dumpsVal (.dict ((k, v) :: tail))
        = '{' :: (dumpsKVs ((k, v) :: tail) ++ '}' :: []) := by
      simp [dumpsVal]
    have hhead : ∃ tl, dumpsKVs ((k, v) :: tail) = '"' :: tl := by
      cases tail with
      | nil => exact ⟨escape k ++ '"' :: ':' :: ' ' :: dumpsVal v, rfl⟩
      | cons kv2 t2 =>
        exact ⟨(escape k ++ '"' :: ':' :: ' ' :: dumpsVal v)
                ++ ',' :: ' ' :: dumpsKVs (kv2 :: t2), rfl⟩
    obtain ⟨tl, htl⟩ := hhead
    have hsk : skipWs (dumpsKVs ((k, v) :: tail) ++ '}' :: [])
        = '"' :: (tl ++ '}' :: []) := by
      rw [htl, List.cons_append, skipWs_cons_not_ws (by decide)]
    unfold loads
    rw [hshape]
    rw [show (('{' :: (dumpsKVs ((k, v) :: tail) ++ '}' :: [])).length + 1)
          = (dumpsKVs ((k, v) :: tail) ++ '}' :: []).length + 1 + 1 from by simp]
    rw [parseVal_brace]
    rw [hsk]
    show (match
        (match parseMembers ((dumpsKVs ((k, v) :: tail) ++ '}' :: []).length + 1)
            (dumpsKVs ((k, v) :: tail) ++ '}' :: []) with
         | some (kvs1, r1) => some (PyVal.dict kvs1, r1)
         | Option.none => Option.none) with
      | some (v1, rest1) => if skipWs rest1 = [] then some v1 else Option.none
      | Option.none => Option.none) = some (PyVal.dict ((k, v) :: tail))
    rw [parseMembers_dumps ((k, v) :: tail) []
      ((dumpsKVs ((k, v) :: tail) ++ '}' :: []).length + 1) (by simp) hprim (by
        have h2 := dumpsKVs_length_ge ((k, v) :: tail)
        simp only [List.length_append, List.length_cons] at h2 ⊢
        omega)]
    simp [skipWs]

theorem loads_dumps_str (s : Str) : loads (dumpsVal (.str s)) = some (.str s) := by
  unfold loads
  have hred : parseVal ((dumpsVal (.str s)).length + 1) (dumpsVal (.str s))
      = (match parseStrBody (escape s ++ ['"']) with
         | some (s1, r1) => some (.str s1, r1)
         | Option.none => Option.none) := by
    cases h : (dumpsVal (.str s)).length with
    | zero =>
      exfalso
      have : dumpsVal (.str s) = '"' :: (escape s ++ ['"']) := rfl
      rw [this] at h
      simp at h
    | succ m => rfl
  rw [hred]
  rw [show escape s ++ ['"'] = escape s ++ '"' :: [] from rfl, parseStrBody_escape]
  simp [skipWs]

/-! ## Claims C6–C7: the response classifier -/

/-- C6.  A raw agent response that is a mapping with JSON-primitive values is
classified as a single `DataPart` whose data equals the original mapping
(`json.loads (json.dumps x) = x` on this fragment), and a string that does not
begin with `{` or `[` is classified as a single `TextPart` with identical
text. -/
theorem C6_classification_roundtrip :
    (∀ kvs : List (Str × PyVal), allPrimVals kvs = true →
        loads (dumpsVal (.dict kvs)) = some (.dict kvs) ∧
        classify (.dict kvs) = .ok [.data (.dict kvs)]) ∧
    (∀ s : Str, s.take 1 ≠ ['{'] → s.take 1 ≠ ['['] →
        classify (.str s) = .ok [.text s]) := by
  constructor
  · intro kvs h
    have hl := loads_dumps_dict kvs h
    exact ⟨hl, by simp [classify, hl]⟩
  · intro s h1 h2
    simp [classify, h1, h2]

theorem C6_witness :
    loads (dumpsVal (.dict exDict)) = some (.dict exDict) ∧
    classify (.dict exDict) = .ok [.data (.dict exDict)] ∧
    classify (.str "Balance OK".data) = .ok [.text "Balance OK".data] := by
  have h := C6_classification_roundtrip
  exact ⟨(h.1 exDict rfl).1, (h.1 exDict rfl).2,
    h.2 ("Balance OK".data) (by decide) (by decide)⟩

/-- C7 counterexample.  The claim says a string beginning with `{` that is not
parseable as JSON is classified as a `TextPart`.  On the concrete input
`"{oops"`, `json.loads` fails, but the fallback
`json.loads(json.dumps(result, default=custom_serializer))` serializes the
*string itself* to a JSON string literal and parses it right back, so the
classifier produces a `DataPart` carrying the string — not a `TextPart`. -/
theorem C7_counterexample :
    ("\x7boops".data).take 1 = ['{'] ∧
    loads ("\x7boops".data) = Option.none ∧
    classify (.str "\x7boops".data) = .ok [.data (.str "\x7boops".data)] ∧
    classify (.str "\x7boops".data) ≠ .ok [.text (pyStr (.str "\x7boops".data))] := by
  refine ⟨rfl, rfl, rfl, ?_⟩
  intro h
  rw [show classify (.str "\x7boops".data) = .ok [.data (.str "\x7boops".data)] from rfl] at h
  simp [pyStr] at h

/-- C7 (amended).  For every string beginning with `{` or `[` on which
`json.loads` fails, the classifier's fallback re-serializes the string itself
and re-parses it, producing a single `DataPart` whose data is the original
string; the `TextPart` branch is unreachable for strings, since serializing a
Python string always yields valid JSON. -/
theorem C7_unparseable_string_becomes_datapart (s : Str)
    (hs : s.take 1 = ['{'] ∨ s.take 1 = ['['])
    (hl : loads s = Option.none) :
    classify (.str s) = .ok [.data (.str s)] := by
  have hrt := loads_dumps_str s
  rcases hs with h | h <;> simp [classify, h, hl, hrt]

theorem C7_witness :
    classify (.str "\x7boops".data) = .ok [.data (.str "\x7boops".data)] :=
  C7_unparseable_string_becomes_datapart ("\x7boops".data) (Or.inl rfl) rfl

/-! ## Claims C8 and C10: the agent wrapper's event loop -/

theorem lastOr_cons (s : Str) (ts : List Str) (d : Option Str) :
    lastOr (s :: ts) d = lastOr ts (some s) := by
  unfold lastOr
  rw [List.getLast?_cons]
  cases hts : ts.getLast? with
  | some t =>
    have : ts.getLastD s = t := by
      rw [List.getLastD_eq_getLast?, hts]
      rfl
    simp [this]
  | none =>
    have : ts.getLastD s = s := by
      rw [List.getLastD_eq_getLast?, hts]
      rfl
    simp [this]

theorem lastOr_append (A B : List Str) (d : Option Str) :
    lastOr (A ++ B) d = lastOr B (lastOr A d) := by
  induction A generalizing d with
  | nil => simp [lastOr]
  | cons a A' ih =>
    rw [List.cons_append, lastOr_cons, lastOr_cons, ih]

theorem scanParts_respFree (parts : List EvPart) (lastText : Option Str)
    (h : respFreeParts parts = true) :
    scanParts parts lastText = .inr (lastOr (textsOfParts parts) lastText) := by
  induction parts generalizing lastText with
  | nil => simp [scanParts, textsOfParts, lastOr]
  | cons p rest ih =>
    cases p with
    | funcResponse pl => simp [respFreeParts] at h
    | text s =>
      have hr : respFreeParts rest = true := by
        simp only [respFreeParts, List.all_cons, Bool.and_eq_true] at h
        exact h.2
      cases he : s.isEmpty with
      | true =>
        have h1 : textsOfParts (.text s :: rest) = textsOfParts rest := by
          have he' : s = [] := by simpa using he
          subst he'
          simp [textsOfParts]
        rw [show scanParts (.text s :: rest) lastText = scanParts rest lastText from by
          simp [scanParts, he], ih _ hr, h1]
      | false =>
        have h1 : textsOfParts (.text s :: rest) = s :: textsOfParts rest := by
          have he' : s ≠ [] := by simpa using he
          simp [textsOfParts, he']
        rw [show scanParts (.text s :: rest) lastText = scanParts rest (some s) from by
          simp [scanParts, he], ih _ hr, h1, lastOr_cons]
    | funcCall name =>
      have hr : respFreeParts rest = true := by
        simp only [respFreeParts, List.all_cons, Bool.and_eq_true] at h
        exact h.2
      simp [scanParts, textsOfParts, ih _ hr]
    | other =>
      have hr : respFreeParts rest = true := by
        simp only [respFreeParts, List.all_cons, Bool.and_eq_true] at h
        exact h.2
      simp [scanParts, textsOfParts, ih _ hr]

theorem scanParts_firstResp (pre : List EvPart) (payload : Payload)
    (post : List EvPart) (lastText : Option Str) (h : respFreeParts pre = true) :
    scanParts (pre ++ .funcResponse payload :: post) lastText = .inl payload := by
  induction pre generalizing lastText with
  | nil => simp [scanParts]
  | cons p ps ih =>
    have hr : respFreeParts ps = true := by
      simp only [respFreeParts, List.all_cons, Bool.and_eq_true] at h
      exact h.2
    cases p with
    | funcResponse pl => simp [respFreeParts] at h
    | text s =>
      cases he : s.isEmpty <;> simp [scanParts, he, ih _ hr]
    | funcCall name => simp [scanParts, ih _ hr]
    | other => simp [scanParts, ih _ hr]

theorem invokeLoop_respFree (events : List Event) (lastText : Option Str)
    (ending : StreamEnd) (h : ∀ ev ∈ events, respFreeParts ev = true) :
    invokeLoop events lastText ending =
      (match ending with
       | .done => (match lastOr (textsOf events) lastText with
                   | some t => t
                   | Option.none => "No usable response received".data)
       | .timeout => "Query timed out".data
       | .raised msg => "Error: ".data ++ msg) := by
  induction events generalizing lastText with
  | nil => cases ending <;> simp [invokeLoop, textsOf, lastOr]
  | cons ev rest ih =>
    have hev := h ev (List.mem_cons_self ev rest)
    have hrest : ∀ e ∈ rest, respFreeParts e = true :=
      fun e he => h e (List.mem_cons_of_mem ev he)
    rw [invokeLoop, scanParts_respFree ev lastText hev]
    simp only []
    rw [ih _ hrest]
    rw [show textsOf (ev :: rest) = textsOfParts ev ++ textsOf rest from rfl,
      lastOr_append]

theorem invokeLoop_firstResp (evs1 : List Event) (pre : List EvPart)
    (payload : Payload) (post : List EvPart) (evs2 : List Event)
    (lastText : Option Str) (ending : StreamEnd)
    (h1 : ∀ ev ∈ evs1, respFreeParts ev = true) (h2 : respFreeParts pre = true) :
    invokeLoop (evs1 ++ (pre ++ .funcResponse payload :: post) :: evs2) lastText ending
      = serializeResponse payload := by
  induction evs1 generalizing lastText with
  | nil =>
    rw [List.nil_append, invokeLoop, scanParts_firstResp pre payload post lastText h2]
  | cons ev rest ih =>
    have hev := h1 ev (List.mem_cons_self ev rest)
    have hrest : ∀ e ∈ rest, respFreeParts e = true :=
      fun e he => h1 e (List.mem_cons_of_mem ev he)
    rw [List.cons_append, invokeLoop, scanParts_respFree ev lastText hev]
    simp only []
    exact ih _ hrest

/-- C8.  (a) The first event part carrying a tool response determines
`invoke`'s return value — its serialized payload — regardless of any earlier
text parts, of everything after it in the stream, and of how the stream would
have ended: consumption short-circuits.  (b) If no tool response occurs and
the stream ends normally, the last non-empty text fragment is returned, or
the sentinel `"No usable response received"` when there was none. -/
theorem C8_first_tool_response_wins :
    (∀ (evs1 : List Event) (pre : List EvPart) (payload : Payload)
       (post : List EvPart) (evs2 : List Event) (ending : StreamEnd),
       (∀ ev ∈ evs1, respFreeParts ev = true) → respFreeParts pre = true →
       Web3Agent_invoke true
         { events := evs1 ++ (pre ++ .funcResponse payload :: post) :: evs2
           ending := ending }
         = .ok (serializeResponse payload)) ∧
    (∀ events : List Event, (∀ ev ∈ events, respFreeParts ev = true) →
       Web3Agent_invoke true { events := events, ending := .done }
         = .ok (match lastOr (textsOf events) Option.none with
                | some t => t
                | Option.none => "No usable response received".data)) := by
  constructor
  · intro evs1 pre payload post evs2 ending h1 h2
    unfold Web3Agent_invoke
    rw [if_pos rfl]
    rw [invokeLoop_firstResp evs1 pre payload post evs2 Option.none ending h1 h2]
  · intro events h
    unfold Web3Agent_invoke
    rw [if_pos rfl]
    rw [invokeLoop_respFree events Option.none .done h]

theorem C8_witness :
    Web3Agent_invoke true
      { events := [[.text "thinking".data],
                   [.funcCall "getBalance".data,
                    .funcResponse (.val (.dict [("x".data, .int 1)]))]]
        ending := .done }
      = .ok (serializeResponse (.val (.dict [("x".data, .int 1)]))) ∧
    Web3Agent_invoke true { events := [[.text "thinking".data]], ending := .done }
      = .ok ("thinking".data) := by
  constructor
  · exact C8_first_tool_response_wins.1 [[.text "thinking".data]]
      [.funcCall "getBalance".data] (.val (.dict [("x".data, .int 1)])) [] [] .done
      (by intro ev hev; simp at hev; subst hev; rfl) rfl
  · have h := C8_first_tool_response_wins.2 [[.text "thinking".data]]
      (by intro ev hev; simp at hev; subst hev; rfl)
    simpa using h

/-- C10.  Once the agent is initialized, `invoke` always returns a string:
(a) it never raises, for any stream whatsoever; (b) a tool-response payload
whose serialization fails is returned as its string form with the
`"Response: "` marker; (c) an exception raised by the stream itself is caught
and returned as a string with the `"Error: "` marker. -/
theorem C10_initialized_invoke_never_raises :
    (∀ stream : EventStream, ∃ s, Web3Agent_invoke true stream = .ok s) ∧
    (∀ (evs1 : List Event) (pre : List EvPart) (sf : Str)
       (post : List EvPart) (evs2 : List Event) (ending : StreamEnd),
       (∀ ev ∈ evs1, respFreeParts ev = true) → respFreeParts pre = true →
       Web3Agent_invoke true
         { events := evs1 ++ (pre ++ .funcResponse (.unserializable sf) :: post) :: evs2
           ending := ending }
         = .ok ("Response: ".data ++ sf)) ∧
    (∀ (events : List Event) (msg : Str),
       (∀ ev ∈ events, respFreeParts ev = true) →
       Web3Agent_invoke true { events := events, ending := .raised msg }
         = .ok ("Error: ".data ++ msg)) := by
  refine ⟨fun stream => ⟨invokeLoop stream.events Option.none stream.ending, rfl⟩, ?_, ?_⟩
  · intro evs1 pre sf post evs2 ending h1 h2
    unfold Web3Agent_invoke
    rw [if_pos rfl]
    rw [invokeLoop_firstResp evs1 pre (.unserializable sf) post evs2 Option.none ending h1 h2]
    rfl
  · intro events msg h
    unfold Web3Agent_invoke
    rw [if_pos rfl]
    rw [invokeLoop_respFree events Option.none (.raised msg) h]

theorem C10_witness :
    Web3Agent_invoke true
      { events := [[.funcResponse (.unserializable "circular".data)]], ending := .done }
      = .ok ("Response: circular".data) ∧
    Web3Agent_invoke true { events := [[.text "hi".data]], ending := .raised "boom".data }
      = .ok ("Error: boom".data) := by
  constructor
  · have h := C10_initialized_invoke_never_raises.2.1 [] [] ("circular".data) [] [] .done
      (by intro ev hev; simp at hev) rfl
    simpa using h
  · have h := C10_initialized_invoke_never_raises.2.2 [[.text "hi".data]] ("boom".data)
      (by intro ev hev; simp at hev; subst hev; rfl)
    simpa using h

/-! ## Claim C9: the schema normalizer

Association-list, shape and measure lemmas, then the fixed-point predicates'
characterizations, leading to the idempotence theorem. -/

theorem lookupK_setK_self {kvs : List (Str × PyVal)} {k : Str} {v : PyVal}
    (h : lookupK kvs k = some v) : setK kvs k v = kvs := by
  induction kvs with
  | nil => rfl
  | cons kv rest ih =>
    obtain ⟨k', v'⟩ := kv
    by_cases hk : k' = k
    · subst hk
      simp [lookupK] at h
      simp [setK, h]
    · simp [lookupK, hk] at h
      simp [setK, hk, ih h]

theorem lookupK_setK_ne (kvs : List (Str × PyVal)) (k k' : Str) (v : PyVal)
    (h : k' ≠ k) : lookupK (setK kvs k v) k' = lookupK kvs k' := by
  induction kvs with
  | nil => rfl
  | cons kv rest ih =>
    obtain ⟨k0, v0⟩ := kv
    by_cases h0 : k0 = k
    · subst h0
      have : ¬(k0 = k') := fun hc => h (hc ▸ rfl)
      simp [setK, lookupK, this]
    · by_cases h1 : k0 = k'
      · subst h1
        simp [setK, lookupK, h0]
      · simp [setK, lookupK, h0, h1, ih]

theorem lookupK_append_right {kvs : List (Str × PyVal)} {k : Str}
    (h : lookupK kvs k = Option.none) (more : List (Str × PyVal)) :
    lookupK (kvs ++ more) k = lookupK more k := by
  induction kvs with
  | nil => rfl
  | cons kv rest ih =>
    obtain ⟨k0, v0⟩ := kv
    by_cases h0 : k0 = k
    · simp [lookupK, h0] at h
    · simp [lookupK, h0] at h ⊢
      exact ih h

theorem lookupK_append_left {kvs : List (Str × PyVal)} {k : Str} {v : PyVal}
    (h : lookupK kvs k = some v) (more : List (Str × PyVal)) :
    lookupK (kvs ++ more) k = some v := by
  induction kvs with
  | nil => simp [lookupK] at h
  | cons kv rest ih =>
    obtain ⟨k0, v0⟩ := kv
    by_cases h0 : k0 = k
    · simp [lookupK, h0] at h ⊢
      exact h
    · simp [lookupK, h0] at h ⊢
      exact ih h

theorem mapVals_congr_id {g : PyVal → PyVal} {kvs : List (Str × PyVal)}
    (h : ∀ kv ∈ kvs, g kv.2 = kv.2) : mapVals g kvs = kvs := by
  unfold mapVals
  induction kvs with
  | nil => rfl
  | cons kv rest ih =>
    rw [List.map_cons, h kv (List.mem_cons_self kv rest),
      ih (fun x hx => h x (List.mem_cons_of_mem kv hx))]

theorem map_congr_id {g : PyVal → PyVal} {l : List PyVal}
    (h : ∀ x ∈ l, g x = x) : l.map g = l := by
  induction l with
  | nil => rfl
  | cons x rest ih =>
    rw [List.map_cons, h x (List.mem_cons_self x rest),
      ih (fun y hy => h y (List.mem_cons_of_mem x hy))]

theorem lookupK_mapVals (g : PyVal → PyVal) (kvs : List (Str × PyVal)) (k : Str) :
    lookupK (mapVals g kvs) k = (lookupK kvs k).map g := by
  induction kvs with
  | nil => rfl
  | cons kv rest ih =>
    obtain ⟨k0, v0⟩ := kv
    by_cases h0 : k0 = k
    · simp [mapVals, lookupK, h0]
    · simp [mapVals, lookupK, h0]
      exact ih

theorem shapePreserving_str_iff {g : PyVal → PyVal} (hg : shapePreserving g)
    (v : PyVal) (t : Str) : g v = .str t ↔ v = .str t := by
  obtain ⟨h1, h2, h3, h4, h5, h6⟩ := hg
  cases v with
  | str s => rw [h1]
  | int n => rw [h2]
  | bool b => rw [h3]
  | none => rw [h4]
  | list l =>
    obtain ⟨l', hl⟩ := h5 l
    rw [hl]
    constructor <;> (intro h; cases h)
  | dict kvs =>
    obtain ⟨kvs', hk⟩ := h6 kvs
    rw [hk]
    constructor <;> (intro h; cases h)

theorem shapePreserving_list_iff {g : PyVal → PyVal} (hg : shapePreserving g)
    (v : PyVal) : (∃ l', g v = .list l') ↔ (∃ l, v = .list l) := by
  obtain ⟨h1, h2, h3, h4, h5, h6⟩ := hg
  cases v with
  | str s => rw [h1]
  | int n => rw [h2]
  | bool b => rw [h3]
  | none => rw [h4]
  | list l =>
    obtain ⟨l', hl⟩ := h5 l
    rw [hl]
    exact ⟨fun _ => ⟨l, rfl⟩, fun _ => ⟨l', rfl⟩⟩
  | dict kvs =>
    obtain ⟨kvs', hk⟩ := h6 kvs
    rw [hk]
    simp

theorem typeIsArrayStr_mapVals {g : PyVal → PyVal} (hg : shapePreserving g)
    (kvs : List (Str × PyVal)) : typeIsArrayStr (mapVals g kvs) = typeIsArrayStr kvs := by
  unfold typeIsArrayStr
  rw [lookupK_mapVals]
  cases ht : lookupK kvs ("type".data) with
  | none => rfl
  | some tv =>
    simp only [Option.map_some']
    cases tv with
    | str t => rw [hg.1 t]
    | int n => rw [hg.2.1 n]
    | bool b => rw [hg.2.2.1 b]
    | none => rw [hg.2.2.2.1]
    | list l =>
      obtain ⟨l', hl⟩ := hg.2.2.2.2.1 l
      rw [hl]
    | dict d =>
      obtain ⟨d', hd⟩ := hg.2.2.2.2.2 d
      rw [hd]

theorem typeIsList_mapVals {g : PyVal → PyVal} (hg : shapePreserving g)
    (kvs : List (Str × PyVal)) : typeIsList (mapVals g kvs) = typeIsList kvs := by
  unfold typeIsList
  rw [lookupK_mapVals]
  cases ht : lookupK kvs ("type".data) with
  | none => rfl
  | some tv =>
    simp only [Option.map_some']
    cases tv with
    | str t => rw [hg.1 t]
    | int n => rw [hg.2.1 n]
    | bool b => rw [hg.2.2.1 b]
    | none => rw [hg.2.2.2.1]
    | list l =>
      obtain ⟨l', hl⟩ := hg.2.2.2.2.1 l
      rw [hl]
    | dict d =>
      obtain ⟨d', hd⟩ := hg.2.2.2.2.2 d
      rw [hd]

theorem hasItems_mapVals (g : PyVal → PyVal) (kvs : List (Str × PyVal)) :
    hasItems (mapVals g kvs) = hasItems kvs := by
  unfold hasItems
  rw [lookupK_mapVals]
  cases lookupK kvs ("items".data) <;> rfl

theorem s1ok_mapVals {g : PyVal → PyVal} (hg : shapePreserving g)
    (kvs : List (Str × PyVal)) : s1ok (mapVals g kvs) = s1ok kvs := by
  unfold s1ok
  rw [typeIsArrayStr_mapVals hg, hasItems_mapVals]

theorem tOk_mapVals {g : PyVal → PyVal} (hg : shapePreserving g)
    (kvs : List (Str × PyVal)) : tOk (mapVals g kvs) = tOk kvs := by
  unfold tOk
  rw [typeIsList_mapVals hg]

theorem isInertKVs_eq {kvs : List (Str × PyVal)} (h : isInertKVs kvs = true) :
    kvs = [("type".data, .str "string".data)] := by
  unfold isInertKVs at h
  split at h
  · rename_i k s
    simp only [Bool.and_eq_true, decide_eq_true_eq] at h
    rw [h.1, h.2]
  · cases h

theorem measKVs_append (A B : List (Str × PyVal)) :
    fixMeasureKVs (A ++ B) = max (fixMeasureKVs A) (fixMeasureKVs B) := by
  induction A with
  | nil => simp [fixMeasureKVs]
  | cons kv rest ih =>
    obtain ⟨k, v⟩ := kv
    rw [List.cons_append]
    rw [show fixMeasureKVs ((k, v) :: (rest ++ B))
          = max (fixMeasure v) (fixMeasureKVs (rest ++ B)) from rfl]
    rw [show fixMeasureKVs ((k, v) :: rest)
          = max (fixMeasure v) (fixMeasureKVs rest) from rfl]
    rw [ih]
    omega

theorem measKVs_le_fixMeasure_dict (kvs : List (Str × PyVal)) :
    fixMeasureKVs kvs ≤ fixMeasure (.dict kvs) := by
  rw [show fixMeasure (.dict kvs)
        = (if isInertKVs kvs then 0 else 1 + fixMeasureKVs kvs) from rfl]
  by_cases h : isInertKVs kvs
  · rw [if_pos h]
    rw [isInertKVs_eq h]
    rfl
  · rw [if_neg h]
    omega

theorem lookup_measure_le {kvs : List (Str × PyVal)} {k : Str} {v : PyVal}
    (h : lookupK kvs k = some v) : fixMeasure v ≤ fixMeasureKVs kvs := by
  induction kvs with
  | nil => cases h
  | cons kv rest ih =>
    obtain ⟨k0, v0⟩ := kv
    rw [show fixMeasureKVs ((k0, v0) :: rest)
          = max (fixMeasure v0) (fixMeasureKVs rest) from rfl]
    by_cases h0 : k0 = k
    · simp [lookupK, h0] at h
      subst h
      omega
    · simp [lookupK, h0] at h
      have := ih h
      omega

theorem measKVs_setK_le (kvs : List (Str × PyVal)) (k : Str) (v : PyVal) :
    fixMeasureKVs (setK kvs k v) ≤ max (fixMeasureKVs kvs) (fixMeasure v) := by
  induction kvs with
  | nil => simp [setK, fixMeasureKVs]
  | cons kv rest ih =>
    obtain ⟨k0, v0⟩ := kv
    by_cases h0 : k0 = k
    · rw [show setK ((k0, v0) :: rest) k v = (k0, v) :: rest from by simp [setK, h0]]
      rw [show fixMeasureKVs ((k0, v) :: rest)
            = max (fixMeasure v) (fixMeasureKVs rest) from rfl,
        show fixMeasureKVs ((k0, v0) :: rest)
            = max (fixMeasure v0) (fixMeasureKVs rest) from rfl]
      omega
    · rw [show setK ((k0, v0) :: rest) k v = (k0, v0) :: setK rest k v from by
        simp [setK, h0]]
      rw [show fixMeasureKVs ((k0, v0) :: setK rest k v)
            = max (fixMeasure v0) (fixMeasureKVs (setK rest k v)) from rfl,
        show fixMeasureKVs ((k0, v0) :: rest)
            = max (fixMeasure v0) (fixMeasureKVs rest) from rfl]
      omega

theorem measKVs_putK_le (kvs : List (Str × PyVal)) (k : Str) (v : PyVal) :
    fixMeasureKVs (putK kvs k v) ≤ max (fixMeasureKVs kvs) (fixMeasure v) := by
  unfold putK
  cases h : lookupK kvs k with
  | some v0 => exact measKVs_setK_le kvs k v
  | none =>
    rw [measKVs_append]
    rw [show fixMeasureKVs [(k, v)] = max (fixMeasure v) 0 from rfl]
    omega

theorem measKVs_fixArrayItems_le (kvs : List (Str × PyVal)) :
    fixMeasureKVs (fixArrayItems kvs) ≤ fixMeasureKVs kvs := by
  unfold fixArrayItems
  split
  · have h := measKVs_putK_le kvs ("items".data) inertItems
    rw [show fixMeasure inertItems = 0 from rfl] at h
    omega
  · exact le_refl _

theorem putK_items_of_none (kvs : List (Str × PyVal))
    (h : lookupK kvs ("items".data) = none) :
    putK kvs ("items".data) inertItems = kvs ++ [("items".data, inertItems)] := by
  unfold putK
  rw [h]

theorem isInertKVs_append_items (xs : List (Str × PyVal)) :
    isInertKVs (xs ++ [("items".data, inertItems)]) = false := by
  cases xs with
  | nil => rfl
  | cons a rest =>
    obtain ⟨k, v⟩ := a
    cases v <;> cases rest <;> rfl

theorem fixArrayItems_not_inert (kvs : List (Str × PyVal))
    (h : isInertKVs kvs = false) : isInertKVs (fixArrayItems kvs) = false := by
  unfold fixArrayItems
  split
  · rename_i hcond
    cases hl : lookupK kvs ("items".data) with
    | some v0 =>
      rw [show hasItems kvs = true from by unfold hasItems; rw [hl]; rfl] at hcond
      simp at hcond
    | none =>
      rw [putK_items_of_none kvs hl]
      exact isInertKVs_append_items kvs
  · exact h

theorem fixMeasure_dict_fixArrayItems_le (kvs : List (Str × PyVal)) :
    fixMeasure (.dict (fixArrayItems kvs)) ≤ fixMeasure (.dict kvs) := by
  by_cases h : isInertKVs kvs
  · rw [isInertKVs_eq h]
    rfl
  · rw [show fixMeasure (.dict (fixArrayItems kvs))
          = (if isInertKVs (fixArrayItems kvs) then 0
             else 1 + fixMeasureKVs (fixArrayItems kvs)) from rfl,
      show fixMeasure (.dict kvs)
          = (if isInertKVs kvs then 0 else 1 + fixMeasureKVs kvs) from rfl]
    rw [fixArrayItems_not_inert kvs (by simpa using h)]
    rw [if_neg h]
    simp only [if_false, Bool.false_eq_true]
    have := measKVs_fixArrayItems_le kvs
    omega

theorem fixOpenaiKVs_eq (f : Nat) (kvs0 : List (Str × PyVal)) :
    fixOpenaiKVs f kvs0 = mapVals (s3val f) (openaiProps f (fixArrayItems kvs0)) := by
  unfold fixOpenaiKVs openaiProps
  rfl

theorem fix_schema_dict_eq (opts : SchemaFixOptions) (f : Nat)
    (kvs0 : List (Str × PyVal)) :
    fix_schema_types_recursive opts (f + 1) (.dict kvs0)
      = .dict (mapVals (schemaSubVal opts f)
          (schemaStep4 opts (schemaStep3 opts (schemaStep2 opts (fixOpenaiKVs f kvs0))))) := by
  unfold fix_schema_types_recursive schemaStep2 schemaStep3 schemaStep4
  rfl

theorem fix_schema_list_eq (opts : SchemaFixOptions) (f : Nat) (items : List PyVal) :
    fix_schema_types_recursive opts (f + 1) (.list items)
      = .list (items.map (schemaSubVal opts f)) := by
  unfold fix_schema_types_recursive
  rfl

theorem lookupK_setK_present {kvs : List (Str × PyVal)} {k : Str} {w : PyVal}
    (h : lookupK kvs k = some w) (v : PyVal) :
    lookupK (setK kvs k v) k = some v := by
  induction kvs with
  | nil => cases h
  | cons kv rest ih =>
    obtain ⟨k0, v0⟩ := kv
    by_cases h0 : k0 = k
    · simp [setK, lookupK, h0]
    · simp [setK, lookupK, h0] at h ⊢
      exact ih h

theorem lookupK_putK_self (kvs : List (Str × PyVal)) (k : Str) (v : PyVal) :
    lookupK (putK kvs k v) k = some v := by
  unfold putK
  cases h : lookupK kvs k with
  | some w => exact lookupK_setK_present h v
  | none =>
    rw [lookupK_append_right h]
    simp [lookupK]

theorem lookupK_putK_ne (kvs : List (Str × PyVal)) (k k' : Str) (v : PyVal)
    (h : k' ≠ k) : lookupK (putK kvs k v) k' = lookupK kvs k' := by
  unfold putK
  cases h0 : lookupK kvs k with
  | some w => exact lookupK_setK_ne kvs k k' v h
  | none =>
    cases h1 : lookupK kvs k' with
    | some w => exact lookupK_append_left h1 _
    | none =>
      rw [lookupK_append_right h1]
      have hne : ¬(k = k') := fun hc => h hc.symm
      simp [lookupK, hne]

theorem lookupK_fixArrayItems_ne (kvs : List (Str × PyVal)) (k' : Str)
    (h : k' ≠ "items".data) :
    lookupK (fixArrayItems kvs) k' = lookupK kvs k' := by
  unfold fixArrayItems
  split
  · exact lookupK_putK_ne kvs ("items".data) k' inertItems h
  · rfl

theorem s1ok_fixArrayItems (kvs : List (Str × PyVal)) :
    s1ok (fixArrayItems kvs) = true := by
  unfold fixArrayItems
  split
  · unfold s1ok hasItems
    rw [lookupK_putK_self]
    simp
  · rename_i h
    unfold s1ok
    simp only [Bool.not_eq_true] at h
    rw [h]
    rfl

theorem fixArrayItems_of_s1ok {kvs : List (Str × PyVal)}
    (h : s1ok kvs = true) : fixArrayItems kvs = kvs := by
  unfold s1ok at h
  have h' : (typeIsArrayStr kvs && !hasItems kvs) = false := by
    cases hc : typeIsArrayStr kvs && !hasItems kvs
    · rfl
    · rw [hc] at h
      cases h
  unfold fixArrayItems
  rw [h']
  rfl

theorem s1ok_setK_other (kvs : List (Str × PyVal)) (k : Str) (v : PyVal)
    (ht : ("type".data : Str) ≠ k) (hi : ("items".data : Str) ≠ k) :
    s1ok (setK kvs k v) = s1ok kvs := by
  unfold s1ok typeIsArrayStr hasItems
  rw [lookupK_setK_ne kvs k ("type".data) v ht,
    lookupK_setK_ne kvs k ("items".data) v hi]

theorem typeIsList_setK_other (kvs : List (Str × PyVal)) (k : Str) (v : PyVal)
    (ht : ("type".data : Str) ≠ k) :
    typeIsList (setK kvs k v) = typeIsList kvs := by
  unfold typeIsList
  rw [lookupK_setK_ne kvs k ("type".data) v ht]

theorem typeIsList_fixArrayItems (kvs : List (Str × PyVal)) :
    typeIsList (fixArrayItems kvs) = typeIsList kvs := by
  unfold typeIsList
  rw [lookupK_fixArrayItems_ne kvs ("type".data) (by decide)]

theorem shapePreserving_s2val (f : Nat) : shapePreserving (s2val f) := by
  refine ⟨fun s => by simp only [s2val], fun n => by simp only [s2val],
    fun b => by simp only [s2val], by simp only [s2val],
    fun l => ⟨l, by simp only [s2val]⟩, fun kvs => ?_⟩
  cases f with
  | zero => exact ⟨kvs, by simp only [s2val, fix_openai_validation_errors]⟩
  | succ f =>
    exact ⟨fixOpenaiKVs f kvs, by simp only [s2val, fix_openai_validation_errors]⟩

theorem shapePreserving_s3val (f : Nat) : shapePreserving (s3val f) := by
  refine ⟨fun s => by simp only [s3val], fun n => by simp only [s3val],
    fun b => by simp only [s3val], by simp only [s3val],
    fun l => ⟨l.map (fun it => if isDict it then fix_openai_validation_errors f it else it),
      by simp only [s3val]⟩, fun kvs => ?_⟩
  cases f with
  | zero => exact ⟨kvs, by simp only [s3val, fix_openai_validation_errors]⟩
  | succ f =>
    exact ⟨fixOpenaiKVs f kvs, by simp only [s3val, fix_openai_validation_errors]⟩

theorem shapePreserving_schemaSubVal (opts : SchemaFixOptions) (f : Nat) :
    shapePreserving (schemaSubVal opts f) := by
  refine ⟨fun s => by simp only [schemaSubVal], fun n => by simp only [schemaSubVal],
    fun b => by simp only [schemaSubVal], by simp only [schemaSubVal],
    fun l => ?_, fun kvs => ?_⟩
  · cases f with
    | zero => exact ⟨l, by simp only [schemaSubVal, fix_schema_types_recursive]⟩
    | succ f =>
      exact ⟨_, by rw [show schemaSubVal opts (f+1) (.list l)
        = fix_schema_types_recursive opts (f+1) (.list l) from by
          simp only [schemaSubVal], fix_schema_list_eq]⟩
  · cases f with
    | zero => exact ⟨kvs, by simp only [schemaSubVal, fix_schema_types_recursive]⟩
    | succ f =>
      exact ⟨_, by rw [show schemaSubVal opts (f+1) (.dict kvs)
        = fix_schema_types_recursive opts (f+1) (.dict kvs) from by
          simp only [schemaSubVal], fix_schema_dict_eq]⟩

theorem s1ok_openaiProps (f : Nat) (kvs : List (Str × PyVal)) :
    s1ok (openaiProps f kvs) = s1ok kvs := by
  unfold openaiProps
  cases hp : lookupK kvs ("properties".data) with
  | none => rfl
  | some w =>
    cases w with
    | dict props =>
      simp only []
      exact s1ok_setK_other kvs ("properties".data) _ (by decide) (by decide)
    | str s => rfl
    | int n => rfl
    | bool b => rfl
    | none => rfl
    | list l => rfl

theorem typeIsList_openaiProps (f : Nat) (kvs : List (Str × PyVal)) :
    typeIsList (openaiProps f kvs) = typeIsList kvs := by
  unfold openaiProps
  cases hp : lookupK kvs ("properties".data) with
  | none => rfl
  | some w =>
    cases w with
    | dict props =>
      simp only []
      exact typeIsList_setK_other kvs ("properties".data) _ (by decide)
    | str s => rfl
    | int n => rfl
    | bool b => rfl
    | none => rfl
    | list l => rfl

theorem s1ok_fixOpenaiKVs (f : Nat) (kvs0 : List (Str × PyVal)) :
    s1ok (fixOpenaiKVs f kvs0) = true := by
  rw [fixOpenaiKVs_eq, s1ok_mapVals (shapePreserving_s3val f), s1ok_openaiProps,
    s1ok_fixArrayItems]

theorem tOk_schemaStep2 (opts : SchemaFixOptions) (kvs : List (Str × PyVal)) :
    tOk (schemaStep2 opts kvs) = true := by
  unfold schemaStep2
  cases ht : lookupK kvs ("type".data) with
  | none =>
    unfold tOk typeIsList
    rw [ht]
    rfl
  | some w =>
    cases w with
    | list l =>
      simp only []
      unfold tOk typeIsList
      rw [lookupK_setK_present ht (.str opts.convert_type_arrays_to)]
      rfl
    | str s =>
      unfold tOk typeIsList
      rw [ht]
      rfl
    | int n =>
      unfold tOk typeIsList
      rw [ht]
      rfl
    | bool b =>
      unfold tOk typeIsList
      rw [ht]
      rfl
    | none =>
      unfold tOk typeIsList
      rw [ht]
      rfl
    | dict kvs2 =>
      unfold tOk typeIsList
      rw [ht]
      rfl

theorem lookupK_schemaStep3_ne (opts : SchemaFixOptions) (kvs : List (Str × PyVal))
    (k' : Str) (h : k' ≠ "enum".data) :
    lookupK (schemaStep3 opts kvs) k' = lookupK kvs k' := by
  unfold schemaStep3
  by_cases ha : opts.aggressive = true
  · rw [if_pos ha]
    cases he : lookupK kvs ("enum".data) with
    | none => rfl
    | some w =>
      cases w with
      | list vals =>
        simp only []
        exact lookupK_setK_ne kvs ("enum".data) k' _ h
      | str s => rfl
      | int n => rfl
      | bool b => rfl
      | none => rfl
      | dict kvs2 => rfl
  · rw [if_neg ha]

theorem tOk_schemaStep3 (opts : SchemaFixOptions) (kvs : List (Str × PyVal)) :
    tOk (schemaStep3 opts kvs) = tOk kvs := by
  unfold tOk typeIsList
  rw [lookupK_schemaStep3_ne opts kvs ("type".data) (by decide)]

theorem tOk_schemaStep4 (opts : SchemaFixOptions) (kvs : List (Str × PyVal)) :
    tOk (schemaStep4 opts kvs) = tOk kvs := by
  unfold schemaStep4
  by_cases ha : opts.aggressive = true
  · rw [if_pos ha]
    unfold tOk
    rw [typeIsList_fixArrayItems]
  · rw [if_neg ha]

theorem s1ok_schemaStep4_agg (opts : SchemaFixOptions)
    (ha : opts.aggressive = true) (kvs : List (Str × PyVal)) :
    s1ok (schemaStep4 opts kvs) = true := by
  unfold schemaStep4
  rw [if_pos ha]
  exact s1ok_fixArrayItems kvs

theorem schemaStep3_nonagg (opts : SchemaFixOptions)
    (ha : opts.aggressive = false) (kvs : List (Str × PyVal)) :
    schemaStep3 opts kvs = kvs := by
  unfold schemaStep3
  rw [ha]
  rfl

theorem schemaStep4_nonagg (opts : SchemaFixOptions)
    (ha : opts.aggressive = false) (kvs : List (Str × PyVal)) :
    schemaStep4 opts kvs = kvs := by
  unfold schemaStep4
  rw [ha]
  rfl

theorem eOk_nonagg (opts : SchemaFixOptions) (ha : opts.aggressive = false)
    (kvs : List (Str × PyVal)) : eOk opts kvs = true := by
  unfold eOk
  rw [ha]
  rfl

theorem s1ok_schemaStep2 (opts : SchemaFixOptions)
    (hc : opts.convert_type_arrays_to ≠ "array".data) (kvs : List (Str × PyVal))
    (h : s1ok kvs = true) : s1ok (schemaStep2 opts kvs) = true := by
  unfold schemaStep2
  cases ht : lookupK kvs ("type".data) with
  | none => exact h
  | some w =>
    cases w with
    | list l =>
      simp only []
      unfold s1ok typeIsArrayStr
      rw [lookupK_setK_present ht (.str opts.convert_type_arrays_to)]
      simp only []
      rw [if_neg hc]
      rfl
    | str s => exact h
    | int n => exact h
    | bool b => exact h
    | none => exact h
    | dict kvs2 => exact h

theorem fixMeasure_enumToStr (v : PyVal) : fixMeasure (enumToStr v) = 0 := by
  cases v <;> rfl

theorem measElems_map_enumToStr (vals : List PyVal) :
    fixMeasureElems (vals.map enumToStr) = 0 := by
  induction vals with
  | nil => rfl
  | cons v rest ih =>
    rw [List.map_cons,
      show fixMeasureElems (enumToStr v :: List.map enumToStr rest)
        = max (fixMeasure (enumToStr v)) (fixMeasureElems (List.map enumToStr rest))
        from rfl,
      fixMeasure_enumToStr, ih]
    omega

theorem all_isStrVal_map_enumToStr (vals : List PyVal) :
    (vals.map enumToStr).all isStrVal = true := by
  induction vals with
  | nil => rfl
  | cons v rest ih =>
    rw [List.map_cons, List.all_cons, ih, Bool.and_true]
    cases v <;> rfl

theorem map_enumToStr_id {vals : List PyVal} (h : vals.all isStrVal = true) :
    vals.map enumToStr = vals := by
  apply map_congr_id
  intro x hx
  have hs : isStrVal x = true := List.all_eq_true.mp h x hx
  cases x with
  | str s => rfl
  | int n => simp [isStrVal] at hs
  | bool b => simp [isStrVal] at hs
  | none => simp [isStrVal] at hs
  | list l => simp [isStrVal] at hs
  | dict kvs => simp [isStrVal] at hs

theorem schemaSubVal_strList (opts : SchemaFixOptions) (f : Nat) {l : List PyVal}
    (h : l.all isStrVal = true) : schemaSubVal opts f (.list l) = .list l := by
  cases f with
  | zero => simp only [schemaSubVal, fix_schema_types_recursive]
  | succ f =>
    rw [show schemaSubVal opts (f+1) (.list l)
      = fix_schema_types_recursive opts (f+1) (.list l) from by simp only [schemaSubVal],
      fix_schema_list_eq]
    congr 1
    apply map_congr_id
    intro x hx
    have hs : isStrVal x = true := List.all_eq_true.mp h x hx
    cases x with
    | str s => simp only [schemaSubVal]
    | int n => simp [isStrVal] at hs
    | bool b => simp [isStrVal] at hs
    | none => simp [isStrVal] at hs
    | list l2 => simp [isStrVal] at hs
    | dict kvs2 => simp [isStrVal] at hs

theorem measKVs_schemaStep2_le (opts : SchemaFixOptions) (kvs : List (Str × PyVal)) :
    fixMeasureKVs (schemaStep2 opts kvs) ≤ fixMeasureKVs kvs := by
  unfold schemaStep2
  cases ht : lookupK kvs ("type".data) with
  | none => exact le_refl _
  | some w =>
    cases w with
    | list l =>
      simp only []
      have h := measKVs_setK_le kvs ("type".data) (.str opts.convert_type_arrays_to)
      rw [show fixMeasure (PyVal.str opts.convert_type_arrays_to) = 0 from rfl] at h
      simpa using h
    | str s => exact le_refl _
    | int n => exact le_refl _
    | bool b => exact le_refl _
    | none => exact le_refl _
    | dict kvs2 => exact le_refl _

theorem measKVs_schemaStep3_le (opts : SchemaFixOptions) (kvs : List (Str × PyVal)) :
    fixMeasureKVs (schemaStep3 opts kvs) ≤ fixMeasureKVs kvs := by
  unfold schemaStep3
  by_cases ha : opts.aggressive = true
  · rw [if_pos ha]
    cases he : lookupK kvs ("enum".data) with
    | none => exact le_refl _
    | some w =>
      cases w with
      | list vals =>
        simp only []
        have h := measKVs_setK_le kvs ("enum".data) (.list (vals.map enumToStr))
        have h2 : fixMeasure (PyVal.list (vals.map enumToStr)) = 1 := by
          rw [show fixMeasure (PyVal.list (vals.map enumToStr))
            = 1 + fixMeasureElems (vals.map enumToStr) from rfl, measElems_map_enumToStr]
        have h4 := lookup_measure_le he
        rw [show fixMeasure (PyVal.list vals) = 1 + fixMeasureElems vals from rfl] at h4
        rw [h2] at h
        have h5 : max (fixMeasureKVs kvs) 1 ≤ fixMeasureKVs kvs := by omega
        exact le_trans h h5
      | str s => exact le_refl _
      | int n => exact le_refl _
      | bool b => exact le_refl _
      | none => exact le_refl _
      | dict kvs2 => exact le_refl _
  · rw [if_neg ha]

theorem measKVs_schemaStep4_le (opts : SchemaFixOptions) (kvs : List (Str × PyVal)) :
    fixMeasureKVs (schemaStep4 opts kvs) ≤ fixMeasureKVs kvs := by
  unfold schemaStep4
  by_cases ha : opts.aggressive = true
  · rw [if_pos ha]
    exact measKVs_fixArrayItems_le kvs
  · rw [if_neg ha]

theorem mem_measKVs_le {kvs : List (Str × PyVal)} {kv : Str × PyVal}
    (h : kv ∈ kvs) : fixMeasure kv.2 ≤ fixMeasureKVs kvs := by
  induction kvs with
  | nil => cases h
  | cons a rest ih =>
    obtain ⟨k0, v0⟩ := a
    rw [show fixMeasureKVs ((k0, v0) :: rest)
      = max (fixMeasure v0) (fixMeasureKVs rest) from rfl]
    rcases List.mem_cons.mp h with h1 | h1
    · rw [h1]
      exact le_max_left _ _
    · exact le_trans (ih h1) (le_max_right _ _)

theorem mem_measElems_le {items : List PyVal} {it : PyVal}
    (h : it ∈ items) : fixMeasure it ≤ fixMeasureElems items := by
  induction items with
  | nil => cases h
  | cons a rest ih =>
    rw [show fixMeasureElems (a :: rest)
      = max (fixMeasure a) (fixMeasureElems rest) from rfl]
    rcases List.mem_cons.mp h with h1 | h1
    · rw [h1]
      exact le_max_left _ _
    · exact le_trans (ih h1) (le_max_right _ _)

theorem measKVs_mapVals_le {g : PyVal → PyVal}
    (hg : ∀ w, fixMeasure (g w) ≤ fixMeasure w) (kvs : List (Str × PyVal)) :
    fixMeasureKVs (mapVals g kvs) ≤ fixMeasureKVs kvs := by
  induction kvs with
  | nil => exact le_refl _
  | cons a rest ih =>
    obtain ⟨k0, v0⟩ := a
    rw [show mapVals g ((k0, v0) :: rest) = (k0, g v0) :: mapVals g rest from rfl,
      show fixMeasureKVs ((k0, g v0) :: mapVals g rest)
        = max (fixMeasure (g v0)) (fixMeasureKVs (mapVals g rest)) from rfl,
      show fixMeasureKVs ((k0, v0) :: rest)
        = max (fixMeasure v0) (fixMeasureKVs rest) from rfl]
    have := hg v0
    omega

theorem measElems_map_le {g : PyVal → PyVal}
    (hg : ∀ it, fixMeasure (g it) ≤ fixMeasure it) (items : List PyVal) :
    fixMeasureElems (items.map g) ≤ fixMeasureElems items := by
  induction items with
  | nil => exact le_refl _
  | cons a rest ih =>
    rw [List.map_cons,
      show fixMeasureElems (g a :: rest.map g)
        = max (fixMeasure (g a)) (fixMeasureElems (rest.map g)) from rfl,
      show fixMeasureElems (a :: rest)
        = max (fixMeasure a) (fixMeasureElems rest) from rfl]
    have := hg a
    omega

theorem measKVs_setK_le_of {kvs : List (Str × PyVal)} {k : Str} {v : PyVal}
    (h : fixMeasure v ≤ fixMeasureKVs kvs) :
    fixMeasureKVs (setK kvs k v) ≤ fixMeasureKVs kvs :=
  le_trans (measKVs_setK_le kvs k v) (max_le (le_refl _) h)

theorem s2val_measure_le (f : Nat)
    (hV : ∀ v, fixMeasure (fix_openai_validation_errors f v) ≤ fixMeasure v)
    (w : PyVal) : fixMeasure (s2val f w) ≤ fixMeasure w := by
  cases w with
  | dict kvs =>
    rw [show s2val f (PyVal.dict kvs) = fix_openai_validation_errors f (PyVal.dict kvs)
      from by simp only [s2val]]
    exact hV _
  | str s => rw [show s2val f (PyVal.str s) = PyVal.str s from by simp only [s2val]]
  | int n => rw [show s2val f (PyVal.int n) = PyVal.int n from by simp only [s2val]]
  | bool b => rw [show s2val f (PyVal.bool b) = PyVal.bool b from by simp only [s2val]]
  | none => rw [show s2val f PyVal.none = PyVal.none from by simp only [s2val]]
  | list l => rw [show s2val f (PyVal.list l) = PyVal.list l from by simp only [s2val]]

theorem s3val_measure_le (f : Nat)
    (hV : ∀ v, fixMeasure (fix_openai_validation_errors f v) ≤ fixMeasure v)
    (w : PyVal) : fixMeasure (s3val f w) ≤ fixMeasure w := by
  cases w with
  | dict kvs =>
    rw [show s3val f (PyVal.dict kvs) = fix_openai_validation_errors f (PyVal.dict kvs)
      from by simp only [s3val]]
    exact hV _
  | list items =>
    rw [show s3val f (PyVal.list items)
      = PyVal.list (items.map (fun it =>
          if isDict it then fix_openai_validation_errors f it else it))
      from by simp only [s3val]]
    rw [show fixMeasure (PyVal.list (items.map (fun it =>
          if isDict it then fix_openai_validation_errors f it else it)))
      = 1 + fixMeasureElems (items.map (fun it =>
          if isDict it then fix_openai_validation_errors f it else it)) from rfl,
      show fixMeasure (PyVal.list items) = 1 + fixMeasureElems items from rfl]
    have hfun : ∀ it,
        fixMeasure (if isDict it then fix_openai_validation_errors f it else it)
          ≤ fixMeasure it := by
      intro it
      by_cases hd : isDict it = true
      · rw [if_pos hd]
        exact hV it
      · rw [if_neg hd]
    have := measElems_map_le hfun items
    omega
  | str s => rw [show s3val f (PyVal.str s) = PyVal.str s from by simp only [s3val]]
  | int n => rw [show s3val f (PyVal.int n) = PyVal.int n from by simp only [s3val]]
  | bool b => rw [show s3val f (PyVal.bool b) = PyVal.bool b from by simp only [s3val]]
  | none => rw [show s3val f PyVal.none = PyVal.none from by simp only [s3val]]

theorem openaiProps_core_le (f : Nat)
    (hV : ∀ v, fixMeasure (fix_openai_validation_errors f v) ≤ fixMeasure v)
    {props P1 : List (Str × PyVal)} (hP1m : fixMeasureKVs P1 ≤ fixMeasureKVs props)
    (hP1in : isInertKVs props = true → P1 = props)
    {kvs : List (Str × PyVal)}
    (hps : fixMeasure (.dict props) ≤ fixMeasureKVs kvs) :
    fixMeasure (.dict (mapVals (s2val f) P1)) ≤ fixMeasureKVs kvs := by
  by_cases hx : isInertKVs (mapVals (s2val f) P1) = true
  · rw [show fixMeasure (PyVal.dict (mapVals (s2val f) P1))
      = if isInertKVs (mapVals (s2val f) P1) then 0
        else 1 + fixMeasureKVs (mapVals (s2val f) P1) from rfl, if_pos hx]
    omega
  · rw [show fixMeasure (PyVal.dict (mapVals (s2val f) P1))
      = if isInertKVs (mapVals (s2val f) P1) then 0
        else 1 + fixMeasureKVs (mapVals (s2val f) P1) from rfl, if_neg hx]
    by_cases hpin : isInertKVs props = true
    · exfalso
      apply hx
      rw [hP1in hpin, isInertKVs_eq hpin,
        show mapVals (s2val f) [("type".data, PyVal.str "string".data)]
          = [("type".data, s2val f (PyVal.str "string".data))] from rfl,
        show s2val f (PyVal.str "string".data) = PyVal.str "string".data from by
          simp only [s2val]]
      rfl
    · rw [show fixMeasure (PyVal.dict props)
        = if isInertKVs props then 0 else 1 + fixMeasureKVs props from rfl,
        if_neg hpin] at hps
      have h1 : fixMeasureKVs (mapVals (s2val f) P1) ≤ fixMeasureKVs P1 :=
        measKVs_mapVals_le (s2val_measure_le f hV) P1
      omega

theorem openaiProps_measure_le (f : Nat)
    (hV : ∀ v, fixMeasure (fix_openai_validation_errors f v) ≤ fixMeasure v)
    (kvs : List (Str × PyVal)) :
    fixMeasureKVs (openaiProps f kvs) ≤ fixMeasureKVs kvs := by
  unfold openaiProps
  cases hp : lookupK kvs ("properties".data) with
  | none => exact le_refl _
  | some w =>
    cases w with
    | dict props =>
      simp only []
      have hps := lookup_measure_le hp
      cases ha : lookupK props ("args".data) with
      | some w2 =>
        cases w2 with
        | dict args =>
          simp only []
          exact measKVs_setK_le_of (openaiProps_core_le f hV
            (measKVs_setK_le_of
              (le_trans (fixMeasure_dict_fixArrayItems_le args) (lookup_measure_le ha)))
            (fun hpin => by
              rw [isInertKVs_eq hpin] at ha
              simp [lookupK] at ha)
            hps)
        | str s =>
          simp only []
          exact measKVs_setK_le_of (openaiProps_core_le f hV (le_refl _)
            (fun _ => rfl) hps)
        | int n =>
          simp only []
          exact measKVs_setK_le_of (openaiProps_core_le f hV (le_refl _)
            (fun _ => rfl) hps)
        | bool b =>
          simp only []
          exact measKVs_setK_le_of (openaiProps_core_le f hV (le_refl _)
            (fun _ => rfl) hps)
        | none =>
          simp only []
          exact measKVs_setK_le_of (openaiProps_core_le f hV (le_refl _)
            (fun _ => rfl) hps)
        | list l2 =>
          simp only []
          exact measKVs_setK_le_of (openaiProps_core_le f hV (le_refl _)
            (fun _ => rfl) hps)
      | none =>
        simp only []
        exact measKVs_setK_le_of (openaiProps_core_le f hV (le_refl _)
          (fun _ => rfl) hps)
    | str s => exact le_refl _
    | int n => exact le_refl _
    | bool b => exact le_refl _
    | none => exact le_refl _
    | list l => exact le_refl _

theorem fixMeasure_dict_le_of {A B : List (Str × PyVal)}
    (hm : fixMeasureKVs A ≤ fixMeasureKVs B)
    (hin : isInertKVs B = true → A = B) :
    fixMeasure (.dict A) ≤ fixMeasure (.dict B) := by
  by_cases hB : isInertKVs B = true
  · rw [hin hB]
  · rw [show fixMeasure (PyVal.dict A)
      = if isInertKVs A then 0 else 1 + fixMeasureKVs A from rfl,
      show fixMeasure (PyVal.dict B)
      = if isInertKVs B then 0 else 1 + fixMeasureKVs B from rfl,
      if_neg hB]
    by_cases hA : isInertKVs A = true
    · rw [if_pos hA]
      omega
    · rw [if_neg hA]
      omega

theorem fixOpenaiKVs_inert (f : Nat) :
    fixOpenaiKVs f [("type".data, .str "string".data)]
      = [("type".data, .str "string".data)] := by
  rw [fixOpenaiKVs_eq,
    show openaiProps f (fixArrayItems [("type".data, PyVal.str "string".data)])
      = [("type".data, PyVal.str "string".data)] from rfl]
  unfold mapVals
  rw [List.map_cons, List.map_nil,
    show s3val f (PyVal.str "string".data) = PyVal.str "string".data from by
      simp only [s3val]]

theorem fix_openai_measure_le :
    ∀ (f : Nat) (v : PyVal),
      fixMeasure (fix_openai_validation_errors f v) ≤ fixMeasure v := by
  intro f
  induction f with
  | zero =>
    intro v
    rw [show fix_openai_validation_errors 0 v = v from by
      simp only [fix_openai_validation_errors]]
  | succ f ih =>
    intro v
    cases v with
    | dict kvs0 =>
      rw [show fix_openai_validation_errors (f + 1) (PyVal.dict kvs0)
        = PyVal.dict (fixOpenaiKVs f kvs0) from by
          simp only [fix_openai_validation_errors]]
      exact fixMeasure_dict_le_of
        (by rw [fixOpenaiKVs_eq]
            exact le_trans (measKVs_mapVals_le (s3val_measure_le f ih) _)
              (le_trans (openaiProps_measure_le f ih _)
                (measKVs_fixArrayItems_le kvs0)))
        (fun hB => by rw [isInertKVs_eq hB, fixOpenaiKVs_inert])
    | str s =>
      rw [show fix_openai_validation_errors (f + 1) (PyVal.str s) = PyVal.str s
        from by simp only [fix_openai_validation_errors]]
    | int n =>
      rw [show fix_openai_validation_errors (f + 1) (PyVal.int n) = PyVal.int n
        from by simp only [fix_openai_validation_errors]]
    | bool b =>
      rw [show fix_openai_validation_errors (f + 1) (PyVal.bool b) = PyVal.bool b
        from by simp only [fix_openai_validation_errors]]
    | none =>
      rw [show fix_openai_validation_errors (f + 1) PyVal.none = PyVal.none
        from by simp only [fix_openai_validation_errors]]
    | list l =>
      rw [show fix_openai_validation_errors (f + 1) (PyVal.list l) = PyVal.list l
        from by simp only [fix_openai_validation_errors]]

theorem fixOpenaiKVs_measKVs_le (f : Nat) (kvs : List (Str × PyVal)) :
    fixMeasureKVs (fixOpenaiKVs f kvs) ≤ fixMeasureKVs kvs := by
  rw [fixOpenaiKVs_eq]
  exact le_trans (measKVs_mapVals_le (s3val_measure_le f (fix_openai_measure_le f)) _)
    (le_trans (openaiProps_measure_le f (fix_openai_measure_le f) _)
      (measKVs_fixArrayItems_le kvs))

theorem schemaFixedSub_eq_V (opts : SchemaFixOptions) (v : PyVal) :
    schemaFixedSub opts v = schemaFixedV opts v := by
  cases v <;> simp only [schemaFixedSub, schemaFixedV]

theorem schemaFixedV_dict (opts : SchemaFixOptions) (kvs : List (Str × PyVal)) :
    schemaFixedV opts (.dict kvs)
      = (s1ok kvs && tOk kvs && eOk opts kvs && schemaFixedKVs opts kvs) := by
  simp only [schemaFixedV]

theorem schemaFixedV_list (opts : SchemaFixOptions) (items : List PyVal) :
    schemaFixedV opts (.list items) = schemaFixedItems opts items := by
  simp only [schemaFixedV]

theorem lookup_schemaFixedSub {opts : SchemaFixOptions} {kvs : List (Str × PyVal)}
    {k : Str} {v : PyVal} (h : lookupK kvs k = some v)
    (hK : schemaFixedKVs opts kvs = true) : schemaFixedSub opts v = true := by
  induction kvs with
  | nil => cases h
  | cons kv rest ih =>
    obtain ⟨k0, v0⟩ := kv
    rw [show schemaFixedKVs opts ((k0, v0) :: rest)
      = (schemaFixedSub opts v0 && schemaFixedKVs opts rest) from by
        simp only [schemaFixedKVs]] at hK
    rw [Bool.and_eq_true] at hK
    by_cases h0 : k0 = k
    · simp [lookupK, h0] at h
      rw [← h]
      exact hK.1
    · simp [lookupK, h0] at h
      exact ih h hK.2

theorem mem_schemaFixedSub {opts : SchemaFixOptions} {kvs : List (Str × PyVal)}
    {kv : Str × PyVal} (h : kv ∈ kvs) (hK : schemaFixedKVs opts kvs = true) :
    schemaFixedSub opts kv.2 = true := by
  induction kvs with
  | nil => cases h
  | cons a rest ih =>
    obtain ⟨k0, v0⟩ := a
    rw [show schemaFixedKVs opts ((k0, v0) :: rest)
      = (schemaFixedSub opts v0 && schemaFixedKVs opts rest) from by
        simp only [schemaFixedKVs]] at hK
    rw [Bool.and_eq_true] at hK
    rcases List.mem_cons.mp h with h1 | h1
    · rw [h1]
      exact hK.1
    · exact ih h1 hK.2

theorem mem_schemaFixedItems {opts : SchemaFixOptions} {items : List PyVal}
    {it : PyVal} (h : it ∈ items) (hI : schemaFixedItems opts items = true) :
    schemaFixedSub opts it = true := by
  induction items with
  | nil => cases h
  | cons a rest ih =>
    rw [show schemaFixedItems opts (a :: rest)
      = (schemaFixedSub opts a && schemaFixedItems opts rest) from by
        simp only [schemaFixedItems]] at hI
    rw [Bool.and_eq_true] at hI
    rcases List.mem_cons.mp h with h1 | h1
    · rw [h1]
      exact hI.1
    · exact ih h1 hI.2

theorem schemaFixedKVs_mapVals_of {opts : SchemaFixOptions} {g : PyVal → PyVal}
    {kvs : List (Str × PyVal)}
    (h : ∀ kv ∈ kvs, schemaFixedSub opts (g kv.2) = true) :
    schemaFixedKVs opts (mapVals g kvs) = true := by
  induction kvs with
  | nil =>
    rw [show mapVals g ([] : List (Str × PyVal)) = [] from rfl]
    simp only [schemaFixedKVs]
  | cons a rest ih =>
    rw [show mapVals g (a :: rest) = (a.1, g a.2) :: mapVals g rest from rfl,
      show schemaFixedKVs opts ((a.1, g a.2) :: mapVals g rest)
        = (schemaFixedSub opts (g a.2) && schemaFixedKVs opts (mapVals g rest)) from by
          simp only [schemaFixedKVs]]
    rw [h a (List.mem_cons_self a rest),
      ih (fun x hx => h x (List.mem_cons_of_mem a hx))]
    rfl

theorem schemaFixedItems_map_of {opts : SchemaFixOptions} {g : PyVal → PyVal}
    {items : List PyVal}
    (h : ∀ it ∈ items, schemaFixedSub opts (g it) = true) :
    schemaFixedItems opts (items.map g) = true := by
  induction items with
  | nil =>
    rw [List.map_nil]
    simp only [schemaFixedItems]
  | cons a rest ih =>
    rw [List.map_cons,
      show schemaFixedItems opts (g a :: rest.map g)
        = (schemaFixedSub opts (g a) && schemaFixedItems opts (rest.map g)) from by
          simp only [schemaFixedItems]]
    rw [h a (List.mem_cons_self a rest),
      ih (fun x hx => h x (List.mem_cons_of_mem a hx))]
    rfl

theorem fix_schema_inert (opts : SchemaFixOptions) (f : Nat) :
    fix_schema_types_recursive opts (f + 1)
        (.dict [("type".data, .str "string".data)])
      = .dict [("type".data, .str "string".data)] := by
  rw [fix_schema_dict_eq, fixOpenaiKVs_inert]
  rw [show schemaStep2 opts [("type".data, PyVal.str "string".data)]
    = [("type".data, PyVal.str "string".data)] from rfl]
  rw [show schemaStep3 opts [("type".data, PyVal.str "string".data)]
    = [("type".data, PyVal.str "string".data)] from by
      unfold schemaStep3
      by_cases ha : opts.aggressive = true
      · rw [if_pos ha]
        rfl
      · rw [if_neg ha]]
  rw [show schemaStep4 opts [("type".data, PyVal.str "string".data)]
    = [("type".data, PyVal.str "string".data)] from by
      unfold schemaStep4
      by_cases ha : opts.aggressive = true
      · rw [if_pos ha]
        rfl
      · rw [if_neg ha]]
  unfold mapVals
  rw [List.map_cons, List.map_nil,
    show schemaSubVal opts f (PyVal.str "string".data) = PyVal.str "string".data from by
      simp only [schemaSubVal]]

theorem schemaFixedV_inert (opts : SchemaFixOptions) :
    schemaFixedV opts (.dict [("type".data, .str "string".data)]) = true := by
  rw [schemaFixedV_dict]
  rw [show s1ok [("type".data, PyVal.str "string".data)] = true from rfl]
  rw [show tOk [("type".data, PyVal.str "string".data)] = true from rfl]
  rw [show eOk opts [("type".data, PyVal.str "string".data)] = true from by
    unfold eOk
    by_cases ha : opts.aggressive = true
    · rw [if_pos ha]
      rfl
    · rw [if_neg ha]]
  rw [show schemaFixedKVs opts [("type".data, PyVal.str "string".data)] = true from by
    simp only [schemaFixedKVs, schemaFixedSub]
    rfl]
  rfl

theorem eOk_output (opts : SchemaFixOptions) (f : Nat) (K2 : List (Str × PyVal)) :
    eOk opts (mapVals (schemaSubVal opts f)
      (schemaStep4 opts (schemaStep3 opts K2))) = true := by
  by_cases hag : opts.aggressive = true
  · unfold eOk
    rw [if_pos hag, lookupK_mapVals]
    have h4 : lookupK (schemaStep4 opts (schemaStep3 opts K2)) ("enum".data)
        = lookupK (schemaStep3 opts K2) ("enum".data) := by
      unfold schemaStep4
      rw [if_pos hag]
      exact lookupK_fixArrayItems_ne _ _ (by decide)
    rw [h4]
    unfold schemaStep3
    rw [if_pos hag]
    cases he : lookupK K2 ("enum".data) with
    | none =>
      simp only []
      rw [he]
      rfl
    | some w =>
      cases w with
      | list vals =>
        simp only []
        rw [lookupK_setK_present he (.list (vals.map enumToStr)), Option.map_some',
          schemaSubVal_strList opts f (all_isStrVal_map_enumToStr vals)]
        simp only []
        exact all_isStrVal_map_enumToStr vals
      | str s =>
        simp only []
        rw [he, Option.map_some',
          show schemaSubVal opts f (PyVal.str s) = PyVal.str s from by
            simp only [schemaSubVal]]
      | int n =>
        simp only []
        rw [he, Option.map_some',
          show schemaSubVal opts f (PyVal.int n) = PyVal.int n from by
            simp only [schemaSubVal]]
      | bool b =>
        simp only []
        rw [he, Option.map_some',
          show schemaSubVal opts f (PyVal.bool b) = PyVal.bool b from by
            simp only [schemaSubVal]]
      | none =>
        simp only []
        rw [he, Option.map_some',
          show schemaSubVal opts f PyVal.none = PyVal.none from by
            simp only [schemaSubVal]]
      | dict kvs2 =>
        simp only []
        rw [he, Option.map_some']
        obtain ⟨kvs', hk⟩ :=
          (shapePreserving_schemaSubVal opts f).2.2.2.2.2 kvs2
        rw [hk]
  · have hagf : opts.aggressive = false := by
      cases hq : opts.aggressive
      · rfl
      · exact absurd hq hag
    exact eOk_nonagg opts hagf _

/-- The output of `fix_schema_types_recursive` on sufficient fuel is a fixed
point of the traversal (under the side condition on the options). -/
theorem fix_schema_fixed (opts : SchemaFixOptions)
    (hopt : opts.aggressive = true ∨ opts.convert_type_arrays_to ≠ "array".data) :
    ∀ (fuel : Nat) (v : PyVal), fixMeasure v < fuel →
      schemaFixedV opts (fix_schema_types_recursive opts fuel v) = true := by
  intro fuel
  induction fuel with
  | zero =>
    intro v hv
    omega
  | succ f ih =>
    intro v hv
    cases v with
    | str s =>
      rw [show fix_schema_types_recursive opts (f + 1) (PyVal.str s) = PyVal.str s
        from by simp only [fix_schema_types_recursive]]
      simp only [schemaFixedV]
    | int n =>
      rw [show fix_schema_types_recursive opts (f + 1) (PyVal.int n) = PyVal.int n
        from by simp only [fix_schema_types_recursive]]
      simp only [schemaFixedV]
    | bool b =>
      rw [show fix_schema_types_recursive opts (f + 1) (PyVal.bool b) = PyVal.bool b
        from by simp only [fix_schema_types_recursive]]
      simp only [schemaFixedV]
    | none =>
      rw [show fix_schema_types_recursive opts (f + 1) PyVal.none = PyVal.none
        from by simp only [fix_schema_types_recursive]]
      simp only [schemaFixedV]
    | list items =>
      rw [fix_schema_list_eq, schemaFixedV_list]
      apply schemaFixedItems_map_of
      intro it hit
      have hm : fixMeasure it < f := by
        have h1 := mem_measElems_le hit
        rw [show fixMeasure (PyVal.list items) = 1 + fixMeasureElems items
          from rfl] at hv
        omega
      cases it with
      | dict kvs2 =>
        rw [show schemaSubVal opts f (PyVal.dict kvs2)
          = fix_schema_types_recursive opts f (PyVal.dict kvs2) from by
            simp only [schemaSubVal], schemaFixedSub_eq_V]
        exact ih _ hm
      | list l2 =>
        rw [show schemaSubVal opts f (PyVal.list l2)
          = fix_schema_types_recursive opts f (PyVal.list l2) from by
            simp only [schemaSubVal], schemaFixedSub_eq_V]
        exact ih _ hm
      | str s =>
        rw [show schemaSubVal opts f (PyVal.str s) = PyVal.str s from by
          simp only [schemaSubVal]]
        simp only [schemaFixedSub]
      | int n =>
        rw [show schemaSubVal opts f (PyVal.int n) = PyVal.int n from by
          simp only [schemaSubVal]]
        simp only [schemaFixedSub]
      | bool b =>
        rw [show schemaSubVal opts f (PyVal.bool b) = PyVal.bool b from by
          simp only [schemaSubVal]]
        simp only [schemaFixedSub]
      | none =>
        rw [show schemaSubVal opts f PyVal.none = PyVal.none from by
          simp only [schemaSubVal]]
        simp only [schemaFixedSub]
    | dict kvs0 =>
      by_cases hin : isInertKVs kvs0 = true
      · rw [isInertKVs_eq hin, fix_schema_inert]
        exact schemaFixedV_inert opts
      · have hm0 : fixMeasureKVs kvs0 < f := by
          rw [show fixMeasure (PyVal.dict kvs0)
            = if isInertKVs kvs0 then 0 else 1 + fixMeasureKVs kvs0 from rfl,
            if_neg hin] at hv
          omega
        rw [fix_schema_dict_eq, schemaFixedV_dict]
        simp only [Bool.and_eq_true]
        refine ⟨⟨⟨?_, ?_⟩, ?_⟩, ?_⟩
        · rw [s1ok_mapVals (shapePreserving_schemaSubVal opts f)]
          by_cases hag : opts.aggressive = true
          · exact s1ok_schemaStep4_agg opts hag _
          · have hagf : opts.aggressive = false := by
              cases hq : opts.aggressive
              · rfl
              · exact absurd hq hag
            have hc : opts.convert_type_arrays_to ≠ "array".data := by
              rcases hopt with h | h
              · exact absurd h hag
              · exact h
            rw [schemaStep4_nonagg opts hagf, schemaStep3_nonagg opts hagf]
            exact s1ok_schemaStep2 opts hc _ (s1ok_fixOpenaiKVs f kvs0)
        · rw [tOk_mapVals (shapePreserving_schemaSubVal opts f), tOk_schemaStep4,
            tOk_schemaStep3]
          exact tOk_schemaStep2 opts _
        · exact eOk_output opts f _
        · apply schemaFixedKVs_mapVals_of
          intro kv hkv
          have hmw : fixMeasure kv.2 < f := by
            have h1 := mem_measKVs_le hkv
            have h2 := measKVs_schemaStep4_le opts
              (schemaStep3 opts (schemaStep2 opts (fixOpenaiKVs f kvs0)))
            have h3 := measKVs_schemaStep3_le opts
              (schemaStep2 opts (fixOpenaiKVs f kvs0))
            have h4 := measKVs_schemaStep2_le opts (fixOpenaiKVs f kvs0)
            have h5 := fixOpenaiKVs_measKVs_le f kvs0
            omega
          cases hcw : kv.2 with
          | dict kvs2 =>
            rw [show schemaSubVal opts f (PyVal.dict kvs2)
              = fix_schema_types_recursive opts f (PyVal.dict kvs2) from by
                simp only [schemaSubVal], schemaFixedSub_eq_V]
            rw [hcw] at hmw
            exact ih _ hmw
          | list l2 =>
            rw [show schemaSubVal opts f (PyVal.list l2)
              = fix_schema_types_recursive opts f (PyVal.list l2) from by
                simp only [schemaSubVal], schemaFixedSub_eq_V]
            rw [hcw] at hmw
            exact ih _ hmw
          | str s =>
            rw [show schemaSubVal opts f (PyVal.str s) = PyVal.str s from by
              simp only [schemaSubVal]]
            simp only [schemaFixedSub]
          | int n =>
            rw [show schemaSubVal opts f (PyVal.int n) = PyVal.int n from by
              simp only [schemaSubVal]]
            simp only [schemaFixedSub]
          | bool b =>
            rw [show schemaSubVal opts f (PyVal.bool b) = PyVal.bool b from by
              simp only [schemaSubVal]]
            simp only [schemaFixedSub]
          | none =>
            rw [show schemaSubVal opts f PyVal.none = PyVal.none from by
              simp only [schemaSubVal]]
            simp only [schemaFixedSub]

theorem schemaFixedSub_dict_parts {opts : SchemaFixOptions}
    {kvs : List (Str × PyVal)} (h : schemaFixedSub opts (.dict kvs) = true) :
    s1ok kvs = true ∧ tOk kvs = true ∧ eOk opts kvs = true ∧
      schemaFixedKVs opts kvs = true := by
  rw [show schemaFixedSub opts (PyVal.dict kvs)
    = (s1ok kvs && tOk kvs && eOk opts kvs && schemaFixedKVs opts kvs) from by
      simp only [schemaFixedSub]] at h
  simp only [Bool.and_eq_true] at h
  exact ⟨h.1.1.1, h.1.1.2, h.1.2, h.2⟩

theorem schemaStep2_id_of_tOk (opts : SchemaFixOptions)
    {kvs : List (Str × PyVal)} (h : tOk kvs = true) :
    schemaStep2 opts kvs = kvs := by
  unfold schemaStep2
  cases ht : lookupK kvs ("type".data) with
  | none => rfl
  | some w =>
    cases w with
    | list l =>
      unfold tOk typeIsList at h
      rw [ht] at h
      cases h
    | str s => rfl
    | int n => rfl
    | bool b => rfl
    | none => rfl
    | dict kvs2 => rfl

theorem schemaStep3_id_of_eOk (opts : SchemaFixOptions)
    {kvs : List (Str × PyVal)} (h : eOk opts kvs = true) :
    schemaStep3 opts kvs = kvs := by
  unfold schemaStep3
  by_cases hag : opts.aggressive = true
  · rw [if_pos hag]
    cases he : lookupK kvs ("enum".data) with
    | none => rfl
    | some w =>
      cases w with
      | list vals =>
        unfold eOk at h
        rw [if_pos hag, he] at h
        simp only [] at h
        simp only []
        rw [map_enumToStr_id h]
        exact lookupK_setK_self he
      | str s => rfl
      | int n => rfl
      | bool b => rfl
      | none => rfl
      | dict kvs2 => rfl
  · rw [if_neg hag]

theorem schemaStep4_id_of_s1ok (opts : SchemaFixOptions)
    {kvs : List (Str × PyVal)} (h : s1ok kvs = true) :
    schemaStep4 opts kvs = kvs := by
  unfold schemaStep4
  by_cases hag : opts.aggressive = true
  · rw [if_pos hag]
    exact fixArrayItems_of_s1ok h
  · rw [if_neg hag]

theorem openaiProps_id_of (opts : SchemaFixOptions) (f : Nat)
    (hV : ∀ v, schemaFixedSub opts v = true → fix_openai_validation_errors f v = v)
    (kvs : List (Str × PyVal)) (hK : schemaFixedKVs opts kvs = true) :
    openaiProps f kvs = kvs := by
  unfold openaiProps
  cases hp : lookupK kvs ("properties".data) with
  | none => rfl
  | some w =>
    cases w with
    | dict props =>
      simp only []
      have hsub := lookup_schemaFixedSub hp hK
      obtain ⟨hs1, ht, he, hKp⟩ := schemaFixedSub_dict_parts hsub
      have hprops1 : (match lookupK props ("args".data) with
          | some (.dict args) => setK props ("args".data) (.dict (fixArrayItems args))
          | _ => props) = props := by
        cases ha : lookupK props ("args".data) with
        | none => rfl
        | some w2 =>
          cases w2 with
          | dict args =>
            simp only []
            have hsa := lookup_schemaFixedSub ha hKp
            obtain ⟨ha1, h2, h3, h4⟩ := schemaFixedSub_dict_parts hsa
            rw [fixArrayItems_of_s1ok ha1]
            exact lookupK_setK_self ha
          | str s => rfl
          | int n => rfl
          | bool b => rfl
          | none => rfl
          | list l2 => rfl
      rw [hprops1]
      have hmv : mapVals (s2val f) props = props := by
        apply mapVals_congr_id
        intro kv hkv
        have hsub2 := mem_schemaFixedSub hkv hKp
        cases hc : kv.2 with
        | dict kvs2 =>
          rw [hc] at hsub2
          rw [show s2val f (PyVal.dict kvs2)
            = fix_openai_validation_errors f (PyVal.dict kvs2) from by
              simp only [s2val]]
          exact hV _ hsub2
        | str s => simp only [s2val]
        | int n => simp only [s2val]
        | bool b => simp only [s2val]
        | none => simp only [s2val]
        | list l2 => simp only [s2val]
      rw [hmv]
      exact lookupK_setK_self hp
    | str s => rfl
    | int n => rfl
    | bool b => rfl
    | none => rfl
    | list l => rfl

theorem fixOpenaiKVs_id_of (opts : SchemaFixOptions) (f : Nat)
    (hV : ∀ v, schemaFixedSub opts v = true → fix_openai_validation_errors f v = v)
    (kvs : List (Str × PyVal)) (h1 : s1ok kvs = true)
    (hK : schemaFixedKVs opts kvs = true) : fixOpenaiKVs f kvs = kvs := by
  rw [fixOpenaiKVs_eq, fixArrayItems_of_s1ok h1, openaiProps_id_of opts f hV kvs hK]
  apply mapVals_congr_id
  intro kv hkv
  have hsub := mem_schemaFixedSub hkv hK
  cases hc : kv.2 with
  | dict kvs2 =>
    rw [hc] at hsub
    rw [show s3val f (PyVal.dict kvs2)
      = fix_openai_validation_errors f (PyVal.dict kvs2) from by simp only [s3val]]
    exact hV _ hsub
  | list items =>
    rw [hc] at hsub
    rw [show s3val f (PyVal.list items)
      = PyVal.list (items.map (fun it =>
          if isDict it then fix_openai_validation_errors f it else it)) from by
        simp only [s3val]]
    congr 1
    apply map_congr_id
    intro it hit
    have hsubit : schemaFixedSub opts it = true := by
      apply mem_schemaFixedItems hit
      rw [show schemaFixedSub opts (PyVal.list items)
        = schemaFixedItems opts items from by simp only [schemaFixedSub]] at hsub
      exact hsub
    by_cases hd : isDict it = true
    · rw [if_pos hd]
      exact hV it hsubit
    · rw [if_neg hd]
  | str s => simp only [s3val]
  | int n => simp only [s3val]
  | bool b => simp only [s3val]
  | none => simp only [s3val]

theorem fix_openai_id_of_fixed (opts : SchemaFixOptions) :
    ∀ (f : Nat) (v : PyVal), schemaFixedSub opts v = true →
      fix_openai_validation_errors f v = v := by
  intro f
  induction f with
  | zero =>
    intro v h
    simp only [fix_openai_validation_errors]
  | succ f ih =>
    intro v hv
    cases v with
    | dict kvs =>
      rw [show fix_openai_validation_errors (f + 1) (PyVal.dict kvs)
        = PyVal.dict (fixOpenaiKVs f kvs) from by
          simp only [fix_openai_validation_errors]]
      obtain ⟨hs1, ht, he, hK⟩ := schemaFixedSub_dict_parts hv
      rw [fixOpenaiKVs_id_of opts f ih kvs hs1 hK]
    | str s => simp only [fix_openai_validation_errors]
    | int n => simp only [fix_openai_validation_errors]
    | bool b => simp only [fix_openai_validation_errors]
    | none => simp only [fix_openai_validation_errors]
    | list l => simp only [fix_openai_validation_errors]

/-- A schema-fixed value is left unchanged by `fix_schema_types_recursive`,
whatever the fuel. -/
theorem fix_schema_id_of_fixed (opts : SchemaFixOptions) :
    ∀ (fuel : Nat) (v : PyVal), schemaFixedV opts v = true →
      fix_schema_types_recursive opts fuel v = v := by
  intro fuel
  induction fuel with
  | zero =>
    intro v h
    simp only [fix_schema_types_recursive]
  | succ f ih =>
    intro v hv
    cases v with
    | dict kvs0 =>
      rw [fix_schema_dict_eq]
      rw [← schemaFixedSub_eq_V] at hv
      obtain ⟨hs1, ht, he, hK⟩ := schemaFixedSub_dict_parts hv
      rw [fixOpenaiKVs_id_of opts f (fix_openai_id_of_fixed opts f) kvs0 hs1 hK,
        schemaStep2_id_of_tOk opts ht, schemaStep3_id_of_eOk opts he,
        schemaStep4_id_of_s1ok opts hs1]
      congr 1
      apply mapVals_congr_id
      intro kv hkv
      have hsub := mem_schemaFixedSub hkv hK
      cases hc : kv.2 with
      | dict kvs2 =>
        rw [hc] at hsub
        rw [show schemaSubVal opts f (PyVal.dict kvs2)
          = fix_schema_types_recursive opts f (PyVal.dict kvs2) from by
            simp only [schemaSubVal]]
        rw [schemaFixedSub_eq_V] at hsub
        exact ih _ hsub
      | list l2 =>
        rw [hc] at hsub
        rw [show schemaSubVal opts f (PyVal.list l2)
          = fix_schema_types_recursive opts f (PyVal.list l2) from by
            simp only [schemaSubVal]]
        rw [schemaFixedSub_eq_V] at hsub
        exact ih _ hsub
      | str s => simp only [schemaSubVal]
      | int n => simp only [schemaSubVal]
      | bool b => simp only [schemaSubVal]
      | none => simp only [schemaSubVal]
    | list items =>
      rw [fix_schema_list_eq]
      rw [schemaFixedV_list] at hv
      congr 1
      apply map_congr_id
      intro it hit
      have hsub := mem_schemaFixedItems hit hv
      cases it with
      | dict kvs2 =>
        rw [show schemaSubVal opts f (PyVal.dict kvs2)
          = fix_schema_types_recursive opts f (PyVal.dict kvs2) from by
            simp only [schemaSubVal]]
        rw [schemaFixedSub_eq_V] at hsub
        exact ih _ hsub
      | list l2 =>
        rw [show schemaSubVal opts f (PyVal.list l2)
          = fix_schema_types_recursive opts f (PyVal.list l2) from by
            simp only [schemaSubVal]]
        rw [schemaFixedSub_eq_V] at hsub
        exact ih _ hsub
      | str s => simp only [schemaSubVal]
      | int n => simp only [schemaSubVal]
      | bool b => simp only [schemaSubVal]
      | none => simp only [schemaSubVal]
    | str s => simp only [fix_schema_types_recursive]
    | int n => simp only [fix_schema_types_recursive]
    | bool b => simp only [fix_schema_types_recursive]
    | none => simp only [fix_schema_types_recursive]

theorem fixSchema_pass1 :
    fixSchema exOptsArr exListTypeSchema
      = .dict [("type".data, .str "array".data)] := by
  rw [show exListTypeSchema
    = PyVal.dict [("type".data, PyVal.list [PyVal.str "string".data])] from rfl]
  rw [show fixSchema exOptsArr
      (PyVal.dict [("type".data, PyVal.list [PyVal.str "string".data])])
    = fix_schema_types_recursive exOptsArr (2 + 1)
      (PyVal.dict [("type".data, PyVal.list [PyVal.str "string".data])]) from rfl,
    fix_schema_dict_eq]
  have h1 : fixOpenaiKVs 2 [("type".data, PyVal.list [PyVal.str "string".data])]
      = [("type".data, PyVal.list [PyVal.str "string".data])] := by
    rw [fixOpenaiKVs_eq,
      show fixArrayItems [("type".data, PyVal.list [PyVal.str "string".data])]
        = [("type".data, PyVal.list [PyVal.str "string".data])] from rfl,
      show openaiProps 2 [("type".data, PyVal.list [PyVal.str "string".data])]
        = [("type".data, PyVal.list [PyVal.str "string".data])] from rfl]
    unfold mapVals
    rw [List.map_cons, List.map_nil,
      show s3val 2 (PyVal.list [PyVal.str "string".data])
        = PyVal.list [PyVal.str "string".data] from by
        rw [show s3val 2 (PyVal.list [PyVal.str "string".data])
          = PyVal.list ([PyVal.str "string".data].map (fun it =>
              if isDict it then fix_openai_validation_errors 2 it else it)) from by
            simp only [s3val]]
        rw [List.map_cons, List.map_nil,
          if_neg (by decide : ¬(isDict (PyVal.str "string".data) = true))]]
  rw [h1,
    show schemaStep2 exOptsArr [("type".data, PyVal.list [PyVal.str "string".data])]
      = [("type".data, PyVal.str "array".data)] from rfl,
    show schemaStep3 exOptsArr [("type".data, PyVal.str "array".data)]
      = [("type".data, PyVal.str "array".data)] from rfl,
    show schemaStep4 exOptsArr [("type".data, PyVal.str "array".data)]
      = [("type".data, PyVal.str "array".data)] from rfl]
  unfold mapVals
  rw [List.map_cons, List.map_nil,
    show schemaSubVal exOptsArr 2 (PyVal.str "array".data)
      = PyVal.str "array".data from by simp only [schemaSubVal]]

theorem fixSchema_pass2 :
    fixSchema exOptsArr (.dict [("type".data, .str "array".data)])
      = .dict [("type".data, .str "array".data), ("items".data, inertItems)] := by
  rw [show fixSchema exOptsArr (PyVal.dict [("type".data, PyVal.str "array".data)])
    = fix_schema_types_recursive exOptsArr (1 + 1)
      (PyVal.dict [("type".data, PyVal.str "array".data)]) from rfl,
    fix_schema_dict_eq]
  have h1 : fixOpenaiKVs 1 [("type".data, PyVal.str "array".data)]
      = [("type".data, PyVal.str "array".data), ("items".data, inertItems)] := by
    rw [fixOpenaiKVs_eq,
      show fixArrayItems [("type".data, PyVal.str "array".data)]
        = [("type".data, PyVal.str "array".data), ("items".data, inertItems)] from rfl,
      show openaiProps 1
          [("type".data, PyVal.str "array".data), ("items".data, inertItems)]
        = [("type".data, PyVal.str "array".data), ("items".data, inertItems)]
        from rfl]
    unfold mapVals
    rw [List.map_cons, List.map_cons, List.map_nil,
      show s3val 1 (PyVal.str "array".data) = PyVal.str "array".data from by
        simp only [s3val],
      show s3val 1 inertItems = inertItems from by
        rw [show inertItems = PyVal.dict [("type".data, PyVal.str "string".data)]
            from rfl,
          show s3val 1 (PyVal.dict [("type".data, PyVal.str "string".data)])
            = fix_openai_validation_errors 1
                (PyVal.dict [("type".data, PyVal.str "string".data)]) from by
            simp only [s3val],
          show fix_openai_validation_errors 1
              (PyVal.dict [("type".data, PyVal.str "string".data)])
            = PyVal.dict (fixOpenaiKVs 0 [("type".data, PyVal.str "string".data)])
            from by simp only [fix_openai_validation_errors],
          fixOpenaiKVs_inert]]
  rw [h1,
    show schemaStep2 exOptsArr
        [("type".data, PyVal.str "array".data), ("items".data, inertItems)]
      = [("type".data, PyVal.str "array".data), ("items".data, inertItems)] from rfl,
    show schemaStep3 exOptsArr
        [("type".data, PyVal.str "array".data), ("items".data, inertItems)]
      = [("type".data, PyVal.str "array".data), ("items".data, inertItems)] from rfl,
    show schemaStep4 exOptsArr
        [("type".data, PyVal.str "array".data), ("items".data, inertItems)]
      = [("type".data, PyVal.str "array".data), ("items".data, inertItems)] from rfl]
  unfold mapVals
  rw [List.map_cons, List.map_cons, List.map_nil,
    show schemaSubVal exOptsArr 1 (PyVal.str "array".data)
      = PyVal.str "array".data from by simp only [schemaSubVal],
    show schemaSubVal exOptsArr 1 inertItems = inertItems from by
      rw [show inertItems = PyVal.dict [("type".data, PyVal.str "string".data)]
          from rfl,
        show schemaSubVal exOptsArr 1
            (PyVal.dict [("type".data, PyVal.str "string".data)])
          = fix_schema_types_recursive exOptsArr (0 + 1)
              (PyVal.dict [("type".data, PyVal.str "string".data)]) from by
          simp only [schemaSubVal],
        fix_schema_inert]]

/-- C9 counterexample.  With aggressive mode off and fallback type `"array"`
(an admissible `SchemaFixOptions` value), one pass of the normalizer turns
`{"type": ["string"]}` into `{"type": "array"}`, and a second pass adds a
default `items` member, so `fix_schema_types_recursive` is not idempotent for
every options value as the claim states. -/
theorem C9_counterexample :
    fixSchema exOptsArr exListTypeSchema
        = .dict [("type".data, .str "array".data)] ∧
      fixSchema exOptsArr (fixSchema exOptsArr exListTypeSchema)
        = .dict [("type".data, .str "array".data), ("items".data, inertItems)] ∧
      fixSchema exOptsArr (fixSchema exOptsArr exListTypeSchema)
        ≠ fixSchema exOptsArr exListTypeSchema := by
  refine ⟨fixSchema_pass1, ?_, ?_⟩
  · rw [fixSchema_pass1, fixSchema_pass2]
  · rw [fixSchema_pass1, fixSchema_pass2]
    intro hcontra
    have hlen := congrArg
      (fun x => match x with | PyVal.dict l => l.length | _ => 0) hcontra
    simp at hlen

/-- C9.  The claim asserts that `fix_schema_types_recursive` is idempotent:
running it twice with the same options gives the same result as running it
once.  That fails when `aggressive` is off and `convert_type_arrays_to` is
`"array"` (see the counterexample): the first pass can coerce a list-valued
`type` to the string `"array"` without adding `items`, which the second pass
then adds.  Under the amended side condition — aggressive mode on, or a
fallback type other than `"array"`, which covers every call site in the
repository — the output of one pass is a fixed point, so a second pass is the
identity. -/
theorem C9_fix_schema_idempotent (options : SchemaFixOptions) (v : PyVal)
    (h : options.aggressive = true ∨ options.convert_type_arrays_to ≠ "array".data) :
    fixSchema options (fixSchema options v) = fixSchema options v := by
  unfold fixSchema
  exact fix_schema_id_of_fixed options _ _
    (fix_schema_fixed options h (fixMeasure v + 1) v (by omega))

/-- C9 witness: the side condition holds at the options every call site
passes (aggressive mode on), and a second pass over the normalized
list-typed schema changes nothing. -/
theorem C9_witness :
    (exOpts.aggressive = true ∨ exOpts.convert_type_arrays_to ≠ "array".data) ∧
      fixSchema exOpts (fixSchema exOpts exListTypeSchema)
        = fixSchema exOpts exListTypeSchema :=
  ⟨Or.inl rfl, C9_fix_schema_idempotent exOpts exListTypeSchema (Or.inl rfl)⟩

end A2A
